import Mathlib

/-!
Verification of the album-import SQL generator (`get-albums.py`), the
date-shift script (`shift-dates.py`), and the Spotify client retry loop
(`SpotifyClient.make_request`), as a shallow embedding in Lean.

Python strings are modelled as `List Char`; Python ints as `Int` (or `Nat`
where the source value is always a non-negative count); Python dicts used
as insertion-ordered maps are modelled as association lists; the `random`
module is modelled as an oracle parameter (one draw per generated track);
exceptions are modelled with `Except`.
-/

/- ### Generic helpers (association lists, joining, ranges) -/

/-- Lookup in an association list; models Python `dict.get` for the dicts of
the source, whose keys are unique by construction. -/
def alookup {κ ν : Type} [DecidableEq κ] : List (κ × ν) → κ → Option ν
  | [], _ => none
  | (k, v) :: rest, k' => if k = k' then some v else alookup rest k'

/-- Model of Python `sep.join(parts)`. -/
def joinSep (sep : List Char) : List (List Char) → List Char
  | [] => []
  | [x] => x
  | x :: y :: xs => x ++ sep ++ joinSep sep (y :: xs)

/-- The list `[s, s+1, ..., s+n-1]` of `n` consecutive integers. -/
def intRange (s : Int) : Nat → List Int
  | 0 => []
  | n + 1 => s :: intRange (s + 1) n

/-- Does `pat` match at the head of `s`? -/
def leadMatch : List Char → List Char → Bool
  | [], _ => true
  | _ :: _, [] => false
  | p :: ps, c :: cs => p = c && leadMatch ps cs

/-- Model of Python's substring test `pat in s`. -/
def occursIn (pat : List Char) : List Char → Bool
  | [] => leadMatch pat []
  | c :: rest => leadMatch pat (c :: rest) || occursIn pat rest

/-- First-occurrence deduplication (keeps the first copy of each element),
starting from an already-seen list; models the effect of a Python dict whose
keys are inserted in iteration order. -/
def firstDedupFrom (seen : List (List Char)) : List (List Char) → List (List Char)
  | [] => []
  | n :: rest =>
    if n ∈ seen then firstDedupFrom seen rest
    else n :: firstDedupFrom (seen ++ [n]) rest

/-- Decimal digits of a natural number (fuel-based; fuel `n+1` suffices). -/
def natDigitsAux : Nat → Nat → List Char
  | 0, _ => []
  | fuel + 1, n =>
    if n < 10 then [Char.ofNat (48 + n)]
    else natDigitsAux fuel (n / 10) ++ [Char.ofNat (48 + n % 10)]

/-- Decimal rendering of a natural number, as Python `str`. -/
def natChars (n : Nat) : List Char := natDigitsAux (n + 1) n

/-- Decimal rendering of an integer, as Python `str`/f-string formatting. -/
def intChars (i : Int) : List Char :=
  if i < 0 then '-' :: natChars i.natAbs else natChars i.toNat

example : natChars 2020 = ("2020".data) := by decide

example : intChars (-1) = ("-1".data) := by decide

/- ### SQLGenerator.escape_sql_string -/

/-- Model of Python `s.replace("'", "''")` at character level. -/
def escapeChars : List Char → List Char
  | [] => []
  | c :: cs => if c = '\'' then c :: c :: escapeChars cs else c :: escapeChars cs

/-- Model of `SQLGenerator.escape_sql_string` (returns "" on None). -/
def escape_sql_string : Option (List Char) → List Char
  | none => []
  | some s => escapeChars s

example : escapeChars ("a'b".data) = ("a''b".data) := by decide

/- ### ChinookGenreMapper -/

/-- The `genre_mapping` table of `ChinookGenreMapper.__init__`, in the
source's (insertion) order. -/
def genre_mapping : List (List Char × List Char) :=
  [(("rock".data), ("Rock".data)),
   (("metal".data), ("Metal".data)),
   (("hard rock".data), ("Rock".data)),
   (("punk".data), ("Alternative & Punk".data)),
   (("alternative".data), ("Alternative".data)),
   (("indie".data), ("Alternative".data)),
   (("pop".data), ("Pop".data)),
   (("hip hop".data), ("Hip Hop/Rap".data)),
   (("rap".data), ("Hip Hop/Rap".data)),
   (("trap".data), ("Hip Hop/Rap".data)),
   (("r&b".data), ("R&B/Soul".data)),
   (("soul".data), ("R&B/Soul".data)),
   (("jazz".data), ("Jazz".data)),
   (("blues".data), ("Blues".data)),
   (("country".data), ("Country".data)),
   (("folk".data), ("Folk".data)),
   (("classical".data), ("Classical".data)),
   (("edm".data), ("Electronica/Dance".data)),
   (("electronic".data), ("Electronica/Dance".data)),
   (("dance".data), ("Electronica/Dance".data)),
   (("techno".data), ("Electronica/Dance".data)),
   (("house".data), ("Electronica/Dance".data)),
   (("latin".data), ("Latin".data)),
   (("reggae".data), ("Reggae".data)),
   (("reggaeton".data), ("Latin".data)),
   (("world".data), ("World".data))]

/-- The `genre_id_map` table of `ChinookGenreMapper.__init__`. -/
def genre_id_map : List (List Char × Nat) :=
  [(("Rock".data), 1), (("Jazz".data), 2), (("Metal".data), 3),
   (("Alternative & Punk".data), 4), (("Rock And Roll".data), 5),
   (("Blues".data), 6), (("Latin".data), 7), (("Reggae".data), 8),
   (("Pop".data), 9), (("Soundtrack".data), 10), (("Bossa Nova".data), 11),
   (("Easy Listening".data), 12), (("Heavy Metal".data), 13),
   (("R&B/Soul".data), 14), (("Electronica/Dance".data), 15),
   (("World".data), 16), (("Hip Hop/Rap".data), 17),
   (("Science Fiction".data), 18), (("TV Shows".data), 19),
   (("Sci Fi & Fantasy".data), 20), (("Drama".data), 21),
   (("Comedy".data), 22), (("Alternative".data), 23),
   (("Classical".data), 24), (("Opera".data), 25)]

/-- Model of Python `str.lower` (ASCII inputs in all claims). -/
def lowerChars (l : List Char) : List Char := l.map Char.toLower

/-- The `for key, value in self.genre_mapping.items()` loop of
`map_spotify_genre_to_chinook`: first key that is a substring wins. -/
def genreLoop : List (List Char × List Char) → List Char → Option (List Char)
  | [], _ => none
  | (k, v) :: rest, g => if occursIn k g then some v else genreLoop rest g

/-- Model of `ChinookGenreMapper.map_spotify_genre_to_chinook`. -/
def map_spotify_genre_to_chinook (g : List Char) : List Char :=
  (genreLoop genre_mapping (lowerChars g)).getD ("Rock".data)

/-- Model of `ChinookGenreMapper.get_genre_id` (`dict.get(name, 1)`). -/
def get_genre_id (g : List Char) : Nat := (alookup genre_id_map g).getD 1

example : map_spotify_genre_to_chinook ("hard rock".data) = ("Rock".data) := by decide

example : map_spotify_genre_to_chinook ("hip hop".data) = ("Hip Hop/Rap".data) := by decide

example : map_spotify_genre_to_chinook ("zorblax".data) = ("Rock".data) := by decide

/- ### Data model of the SQL generator -/

/-- A `TrackInfo` tuple `(track_name, duration_ms, composer)`. -/
structure TrackInfo where
  name : List Char
  duration_ms : Nat
  composer : List Char
deriving DecidableEq

/-- An `AlbumInfo` tuple
`(artist_name, album_name, release_year, genre, tracks)`. -/
structure AlbumInfo where
  artist_name : List Char
  album_name : List Char
  release_year : Int
  genre : List Char
  tracks : List TrackInfo
deriving DecidableEq

/-- A row appended to `new_albums`:
`(next_album_id, album_name, artist_id, release_year)`. -/
structure AlbumRow where
  albumId : Int
  title : List Char
  artistId : Int
  releaseYear : Int
deriving DecidableEq

/-- An entry `album_map[next_album_id] = (album_name, artist_id, genre, tracks)`
together with its key. -/
structure AMapEntry where
  albumId : Int
  title : List Char
  artistId : Int
  genre : List Char
  tracks : List TrackInfo
deriving DecidableEq

/-- A row appended to `new_tracks`. The unit price is kept in cents
(`99` for 0.99, `129` for 1.29). -/
structure TrackRow where
  trackId : Int
  name : List Char
  albumId : Int
  mediaTypeId : Nat
  genreId : Nat
  composer : List Char
  milliseconds : Nat
  bytes : Nat
  priceCents : Nat
deriving DecidableEq

/-- One track's worth of draws from Python's `random` module:
the index picked by `random.choices` over the four media types, the value of
`random.randint(35, 45)` (encoded as an offset), and whether the 1.29 price
was selected. -/
structure RandDraw where
  mtIdx : Nat
  sizeMul : Nat
  price129 : Bool
deriving DecidableEq

/- ### SQLGenerator.generate_sql, phase by phase -/

/-- The artist-collection loop of `generate_sql` (lines 374-386): returns the
final `artist_ids` dict and the `new_artists` list, given the remaining
albums, `next_artist_id` and the dict built so far. -/
def assignArtists : List AlbumInfo → Int → List (List Char × Int) →
    List (List Char × Int) × List (Int × List Char)
  | [], _, ids => (ids, [])
  | a :: rest, next, ids =>
    match alookup ids (escapeChars a.artist_name) with
    | some _ => assignArtists rest next ids
    | none =>
      let r := assignArtists rest (next + 1) (ids ++ [(escapeChars a.artist_name, next)])
      (r.1, (next, escapeChars a.artist_name) :: r.2)

/-- Python truthiness of `artist_id` at line 407 (`if artist_id:`):
falsy exactly when the lookup returned `None` or `0`. -/
def pyTruthy : Option Int → Bool
  | none => false
  | some v => decide (v ≠ 0)

/-- The album loop of `generate_sql` (lines 397-411): returns `new_albums`
and `album_map` (as an insertion-ordered list). -/
def assignAlbums (ids : List (List Char × Int)) :
    List AlbumInfo → Int → List AlbumRow × List AMapEntry
  | [], _ => ([], [])
  | a :: rest, next =>
    match alookup ids (escapeChars a.artist_name) with
    | none => assignAlbums ids rest next
    | some aid =>
      if aid = 0 then assignAlbums ids rest next
      else
        let r := assignAlbums ids rest (next + 1)
        (⟨next, escapeChars a.album_name, aid, a.release_year⟩ :: r.1,
         ⟨next, escapeChars a.album_name, aid, a.genre, a.tracks⟩ :: r.2)

/-- The `media_types` list of line 422. -/
def media_types : List Nat := [1, 2, 4, 5]

/-- The inner per-track loop of `generate_sql` (lines 432-452) for one
album-map entry: emits one `TrackRow` per track, consuming one random draw
each; returns the rows, the next track id, and the next draw index. -/
def assignTracksFor (oracle : Nat → RandDraw) (gid : Nat) (albumId : Int) :
    List TrackInfo → Int → Nat → List TrackRow × Int × Nat
  | [], next, oi => ([], next, oi)
  | t :: ts, next, oi =>
    let d := oracle oi
    let mt := media_types.getD (d.mtIdx % 4) 1
    let mul := 35 + d.sizeMul % 11
    let price := if d.price129 then 129 else 99
    let r := assignTracksFor oracle gid albumId ts (next + 1) (oi + 1)
    ((⟨next, escapeChars t.name, albumId, mt, gid, escapeChars t.composer,
        t.duration_ms, t.duration_ms * mul, price⟩ : TrackRow) :: r.1, r.2)

/-- The `for album_id, album_info in album_map.items()` loop of
`generate_sql` (lines 425-452). -/
def assignTracks (oracle : Nat → RandDraw) :
    List AMapEntry → Int → Nat → List TrackRow × Int × Nat
  | [], next, oi => ([], next, oi)
  | e :: rest, next, oi =>
    let r1 := assignTracksFor oracle (get_genre_id e.genre) e.albumId e.tracks next oi
    let r2 := assignTracks oracle rest r1.2.1 r1.2.2
    (r1.1 ++ r2.1, r2.2)

/-- Phase-1 wrapper: `artist_ids`/`new_artists` as computed by
`generate_sql(albums, max_artist_id, ...)`. -/
def artistPhase (albums : List AlbumInfo) (maxArtistId : Int) :
    List (List Char × Int) × List (Int × List Char) :=
  assignArtists albums (maxArtistId + 1) []

/-- Phase-2 wrapper: `new_albums`/`album_map`. -/
def albumPhase (albums : List AlbumInfo) (maxArtistId maxAlbumId : Int) :
    List AlbumRow × List AMapEntry :=
  assignAlbums (artistPhase albums maxArtistId).1 albums (maxAlbumId + 1)

/-- Phase-3 wrapper: `new_tracks`. -/
def trackPhase (oracle : Nat → RandDraw) (albums : List AlbumInfo)
    (maxArtistId maxAlbumId maxTrackId : Int) : List TrackRow :=
  (assignTracks oracle (albumPhase albums maxArtistId maxAlbumId).2
    (maxTrackId + 1) 0).1

/- ### Batching and SQL text rendering -/

/-- Fuel-driven body of `chunk_list`; each step emits `l[:k]` and recurses on
`l[k:]`, as the `range(0, len(l), k)` loop does. Fuel `l.length` suffices for
every `k ≥ 1` (for `k = 0` the source raises inside `range`; callers validate
`max_rows ≥ 1`). -/
def chunkFuel {α : Type} : Nat → List α → Nat → List (List α)
  | 0, _, _ => []
  | fuel + 1, l, k =>
    if l.isEmpty then [] else l.take k :: chunkFuel fuel (l.drop k) k

/-- Model of `SQLGenerator.chunk_list`. -/
def chunk_list {α : Type} (l : List α) (k : Nat) : List (List α) :=
  chunkFuel l.length l k

/-- Rendering of the unit price (`0.99` / `1.29`) kept in cents. -/
def priceChars (cents : Nat) : List Char :=
  if cents = 129 then ("1.29".data) else ("0.99".data)

/-- The f-string of line 485: `    ({artist_id}, '{artist_name}')`. -/
def renderArtistRow (p : Int × List Char) : List Char :=
  ("    (".data) ++ intChars p.1 ++ (", '".data) ++ p.2 ++ ("')".data)

/-- The f-string of line 505:
`    ({album_id}, '{title}', {artist_id}, {release_year})`. -/
def renderAlbumRow (r : AlbumRow) : List Char :=
  ("    (".data) ++ intChars r.albumId ++ (", '".data) ++ r.title ++
    ("', ".data) ++ intChars r.artistId ++ (", ".data) ++
    intChars r.releaseYear ++ (")".data)

/-- The f-string of lines 527-528. -/
def renderTrackRow (r : TrackRow) : List Char :=
  ("    (".data) ++ intChars r.trackId ++ (", '".data) ++ r.name ++
    ("', ".data) ++ intChars r.albumId ++ (", ".data) ++
    natChars r.mediaTypeId ++ (", ".data) ++ natChars r.genreId ++
    (", '".data) ++ r.composer ++ ("', ".data) ++ natChars r.milliseconds ++
    (", ".data) ++ natChars r.bytes ++ (", ".data) ++
    priceChars r.priceCents ++ (")".data)

/-- The per-batch `sql_parts` lines of `_generate_*_sql`: for batch index `i`
(0-based, shown 1-based) out of `n`, the comment line, the INSERT line, the
comma-joined values terminated by `;`, and an empty line. -/
def batchSections {ρ : Type} (label insertLine : List Char)
    (renderRow : ρ → List Char) (n : Nat) : Nat → List (List ρ) → List (List Char)
  | _, [] => []
  | i, b :: bs =>
    (("-- ".data) ++ label ++ (" insert batch ".data) ++ natChars (i + 1) ++
        (" of ".data) ++ natChars n)
      :: insertLine
      :: (joinSep (",\n".data) (b.map renderRow) ++ (";".data))
      :: []
      :: batchSections label insertLine renderRow n (i + 1) bs

/-- Model of `SQLGenerator._generate_artist_sql`. -/
def generate_artist_sql (artists : List (Int × List Char)) (k : Nat) : List Char :=
  joinSep ("\n".data)
    (batchSections ("Artist".data)
      ("INSERT INTO Artist (ArtistId, Name) VALUES".data)
      renderArtistRow (chunk_list artists k).length 0 (chunk_list artists k))

/-- Model of `SQLGenerator._generate_album_sql`. -/
def generate_album_sql (albums : List AlbumRow) (k : Nat) : List Char :=
  joinSep ("\n".data)
    (batchSections ("Album".data)
      ("INSERT INTO Album (AlbumId, Title, ArtistId, ReleaseYear) VALUES".data)
      renderAlbumRow (chunk_list albums k).length 0 (chunk_list albums k))

/-- Model of `SQLGenerator._generate_track_sql`. -/
def generate_track_sql (tracks : List TrackRow) (k : Nat) : List Char :=
  joinSep ("\n".data)
    (batchSections ("Track".data)
      (("INSERT INTO Track (TrackId, Name, AlbumId, MediaTypeId, GenreId, " ++
        "Composer, Milliseconds, Bytes, UnitPrice) VALUES").data)
      renderTrackRow (chunk_list tracks k).length 0 (chunk_list tracks k))

/-- Model of `SQLGenerator._generate_header`; the `datetime.now()` timestamp
is a parameter. -/
def sqlHeader (genDate : List Char) : List Char :=
  joinSep ("\n".data)
    [("/*******************************************************************************".data),
     ("   Chinook Database - Album Import".data),
     ("   Description: Adds new albums, artists, and tracks from Spotify API.".data),
     (("   Date Generated: ".data) ++ genDate),
     ("********************************************************************************/".data),
     []]

/-- Model of `SQLGenerator.generate_sql` (lines 354-459): the full returned
text. `oracle` supplies the random draws, `genDate` the header timestamp,
`k` is `max_rows_per_batch`. -/
def generate_sql (oracle : Nat → RandDraw) (genDate : List Char)
    (albums : List AlbumInfo) (maxArtistId maxAlbumId maxTrackId : Int)
    (k : Nat) : List Char :=
  let p1 := assignArtists albums (maxArtistId + 1) []
  let p2 := assignAlbums p1.1 albums (maxAlbumId + 1)
  let p3 := assignTracks oracle p2.2 (maxTrackId + 1) 0
  joinSep ("\n".data)
    ([sqlHeader genDate]
      ++ (if p1.2.isEmpty then [] else [generate_artist_sql p1.2 k])
      ++ (if p2.1.isEmpty then [] else [generate_album_sql p2.1 k])
      ++ (if p3.1.isEmpty then [] else [generate_track_sql p3.1 k]))

/- ### shift-dates.py -/

/-- Value of a list of decimal digit characters, as Python `int`. -/
def digitsToNat (l : List Char) : Nat :=
  l.foldl (fun acc c => 10 * acc + (c.toNat - 48)) 0

/-- Match `\d{4}` followed (non-consumed check resolved by the caller) by
taking exactly the next four characters when they are all digits. -/
def parseYear4 (l : List Char) : Option (List Char × List Char) :=
  if ((l.take 4).length = 4 && (l.take 4).all Char.isDigit) then
    some (l.take 4, l.drop 4)
  else none

/-- Match one literal character at the head of the input. -/
def parseLit (c : Char) : List Char → Option (List Char)
  | c' :: rest => if c' = c then some rest else none
  | [] => none

/-- Match the greedy `\d{1,3}` followed by a non-digit delimiter: since
digits and the delimiters are disjoint, this succeeds exactly when the
maximal digit run has length 1-3 (backtracking to a shorter run can never
turn a digit into the required delimiter). -/
def parseDigits13 (l : List Char) : Option (List Char × List Char) :=
  if (decide (1 ≤ (l.takeWhile Char.isDigit).length) &&
      decide ((l.takeWhile Char.isDigit).length ≤ 3)) then
    some (l.takeWhile Char.isDigit, l.dropWhile Char.isDigit)
  else none

/-- Attempt to match the regex `date '(\d{4})-(\d{1,3})-(\d{1,3})'` at the
head of the input, returning the three digit groups and the rest of the
input after the match. -/
def matchDate (l : List Char) :
    Option (List Char × List Char × List Char × List Char) :=
  match l with
  | 'd' :: 'a' :: 't' :: 'e' :: ' ' :: '\'' :: r0 =>
    (parseYear4 r0).bind fun p1 =>
      (parseLit '-' p1.2).bind fun r2 =>
        (parseDigits13 r2).bind fun p3 =>
          (parseLit '-' p3.2).bind fun r4 =>
            (parseDigits13 r4).bind fun p5 =>
              (parseLit '\'' p5.2).bind fun rest =>
                some (p1.1, p3.1, p5.1, rest)
  | _ => none

/-- The replacement text built by `replace_date`:
`f"date '{year}-{month}-{day}'"` with `year = int(group(1)) - 1`. -/
def dateRepl (y m d : List Char) : List Char :=
  ("date '".data) ++ intChars ((digitsToNat y : Int) - 1) ++ ("-".data) ++ m ++
    ("-".data) ++ d ++ ("'".data)

/-- Fuel-driven body of the per-line substitution `date_pattern.sub`:
scan left to right, replacing each leftmost non-overlapping match. Each step
consumes at least one character, so fuel `l.length` suffices. -/
def shiftFuel : Nat → List Char → List Char
  | 0, l => l
  | _ + 1, [] => []
  | fuel + 1, c :: cs =>
    match matchDate (c :: cs) with
    | some (y, m, d, rest) => dateRepl y m d ++ shiftFuel fuel rest
    | none => c :: shiftFuel fuel cs

/-- Model of one line's transformation in `shift_dates`
(`date_pattern.sub(replace_date, line)`). -/
def shiftLine (l : List Char) : List Char := shiftFuel l.length l

/-- `true` when no suffix of the line matches the date pattern (so `re.sub`
finds no match anywhere). -/
def noDateMatch : List Char → Bool
  | [] => true
  | c :: cs => (matchDate (c :: cs)).isNone && noDateMatch cs

example : shiftLine ("date '2021-06-15'".data) = ("date '2020-06-15'".data) := by decide

example : shiftLine ("date '2021-1-1'".data) = ("date '2020-1-1'".data) := by decide

example : shiftLine ("no dates here 2021".data) = ("no dates here 2021".data) := by decide

/- ### SpotifyClient.make_request -/

/-- Outcome of one attempted HTTP GET, as seen by the `try` block of
`make_request`: success, an `HTTPError` with a status code (429 carrying an
optional parsed `Retry-After` header), or any other exception (network
error etc.) carrying its message. -/
inductive Response : Type
  | success : Response
  | http429 : Option Nat → Response
  | http401 : Response
  | httpOther : Nat → List Char → Response
  | netError : List Char → Response
deriving DecidableEq

/-- The exception that terminates `make_request`: a re-raised `HTTPError`
(other status), the re-raised original exception after exhausting generic
retries, or the final `Exception(f"Failed to get response from {url} after
{max_retries} retries")`. -/
inductive MRError : Type
  | httpError : Nat → List Char → MRError
  | genericError : List Char → MRError
  | exhausted : List Char → Nat → MRError
deriving DecidableEq

/-- The message of each terminal exception of `make_request`. -/
def errMessage : MRError → List Char
  | .httpError _ msg => msg
  | .genericError msg => msg
  | .exhausted url n =>
    ("Failed to get response from ".data) ++ url ++ (" after ".data) ++
      natChars n ++ (" retries".data)

/-- The `while retry_count < max_retries` loop of `make_request`
(lines 112-151). `fuel = max_retries - retry_count` (so the loop guard is
`fuel ≠ 0`), `i` numbers the HTTP requests actually issued. Returns the list
of `time.sleep` durations in order, and either the index of the successful
attempt or the terminal exception. Re-authentication on 401 only swaps the
stored token, which does not affect this abstraction. -/
def mrLoop (resp : Nat → Response) (url : List Char) (maxRetries : Nat) :
    Nat → Nat → List Nat × Except MRError Nat
  | 0, _ => ([], .error (.exhausted url maxRetries))
  | fuel + 1, i =>
    match resp i with
    | .success => ([], .ok i)
    | .http429 ra =>
      let r := mrLoop resp url maxRetries fuel (i + 1)
      (ra.getD 1 :: r.1, r.2)
    | .http401 => mrLoop resp url maxRetries fuel (i + 1)
    | .httpOther code msg => ([], .error (.httpError code msg))
    | .netError msg =>
      if fuel = 0 then ([], .error (.genericError msg))
      else
        let r := mrLoop resp url maxRetries fuel (i + 1)
        (2 ^ (maxRetries - fuel) :: r.1, r.2)

/-- Model of `SpotifyClient.make_request` with `max_retries = 3`. -/
def make_request (resp : Nat → Response) (url : List Char) :
    List Nat × Except MRError Nat :=
  mrLoop resp url 3 3 0

example :
    make_request (fun i => if i = 0 then .http429 (some 5) else .success)
      ("u".data) = ([5], .ok 1) := rfl

example :
    make_request (fun _ => .netError ("boom".data)) ("u".data) =
      ([2, 4], .error (.genericError ("boom".data))) := rfl

example :
    make_request (fun _ => .http429 none) ("u".data) =
      ([1, 1, 1], .error (.exhausted ("u".data) 3)) := rfl

/- ### Derived predicates used in the specifications -/

/-- The guard under which the album loop keeps an album: its (escaped)
artist name looks up to a Python-truthy `artist_id`. -/
def keepAlbum (ids : List (List Char × Int)) (a : AlbumInfo) : Bool :=
  pyTruthy (alookup ids (escapeChars a.artist_name))

/-- Number of single-quote characters in a string. -/
def quoteCount (l : List Char) : Nat := l.count '\''

/-- `true` when every single quote in the string is immediately followed by a
pairing single quote (no lone/unescaped quote). -/
def noLoneQuote : List Char → Bool
  | [] => true
  | [c] => decide (c ≠ '\'')
  | c :: c2 :: cs =>
    if c = '\'' then (c2 = '\'') && noLoneQuote cs
    else noLoneQuote (c2 :: cs)

/-- A literal of the shape matched by the date regex:
`date 'Y-M-D'` with the three digit groups supplied. -/
def dateLit (y m d : List Char) : List Char :=
  ("date '".data) ++ y ++ ("-".data) ++ m ++ ("-".data) ++ d ++ ("'".data)

/-- A concrete track used to exercise the generator on a tiny example. -/
def exTrack : TrackInfo := ⟨("t".data), 100, ("A".data)⟩

/-- First example album (artist `A`, one track). -/
def exAlbum0 : AlbumInfo :=
  ⟨("A".data), ("X".data), 2001, ("rock".data), [exTrack]⟩

/-- Second example album (same artist `A`, no tracks). -/
def exAlbum1 : AlbumInfo := ⟨("A".data), ("Y".data), 2002, ("rock".data), []⟩

/-- Third example album (artist `B`, one track). -/
def exAlbum2 : AlbumInfo :=
  ⟨("B".data), ("Z".data), 2003, ("pop".data), [⟨("u".data), 50, ("B".data)⟩]⟩

/-- A deterministic random oracle for the examples. -/
def exOracle : Nat → RandDraw := fun _ => ⟨0, 0, false⟩

/- ### Lemmas: association lists -/

theorem alookup_mem {κ ν : Type} [DecidableEq κ] {m : List (κ × ν)} {k : κ} {v : ν}
    (h : alookup m k = some v) : (k, v) ∈ m := by
  induction m with
  | nil => simp [alookup] at h
  | cons p rest ih =>
    obtain ⟨k', v'⟩ := p
    simp only [alookup] at h
    split at h
    · next heq => cases h; simp [heq]
    · exact List.mem_cons_of_mem _ (ih h)

theorem alookup_eq_none {κ ν : Type} [DecidableEq κ] {m : List (κ × ν)} {k : κ} :
    alookup m k = none ↔ k ∉ m.map Prod.fst := by
  induction m with
  | nil => simp [alookup]
  | cons p rest ih =>
    obtain ⟨k', v'⟩ := p
    by_cases h : k' = k
    · simp [alookup, h]
    · simp [alookup, h, ih, Ne.symm h]

theorem alookup_isSome_of_mem_keys {κ ν : Type} [DecidableEq κ]
    {m : List (κ × ν)} {k : κ} (h : k ∈ m.map Prod.fst) :
    ∃ v, alookup m k = some v := by
  cases hl : alookup m k with
  | none => exact absurd (alookup_eq_none.mp hl) (by simp [h])
  | some v => exact ⟨v, rfl⟩

theorem alookup_append_some {κ ν : Type} [DecidableEq κ]
    {xs : List (κ × ν)} (ys : List (κ × ν)) {k : κ} {v : ν}
    (h : alookup xs k = some v) : alookup (xs ++ ys) k = some v := by
  induction xs with
  | nil => simp [alookup] at h
  | cons p rest ih =>
    obtain ⟨k', v'⟩ := p
    simp only [alookup, List.cons_append] at h ⊢
    split at h <;> split <;> simp_all

theorem alookup_append_none {κ ν : Type} [DecidableEq κ]
    {xs : List (κ × ν)} (ys : List (κ × ν)) {k : κ}
    (h : alookup xs k = none) : alookup (xs ++ ys) k = alookup ys k := by
  induction xs with
  | nil => simp
  | cons p rest ih =>
    obtain ⟨k', v'⟩ := p
    simp only [alookup, List.cons_append] at h ⊢
    split at h <;> split <;> simp_all

theorem alookup_append_none_left {κ ν : Type} [DecidableEq κ]
    {xs ys : List (κ × ν)} {k : κ}
    (h : alookup (xs ++ ys) k = none) : alookup xs k = none := by
  rw [alookup_eq_none] at h ⊢
  simp only [List.map_append, List.mem_append] at h
  exact fun hx => h (Or.inl hx)

/- ### Lemmas: intRange -/

theorem intRange_length (s : Int) (n : Nat) : (intRange s n).length = n := by
  induction n generalizing s with
  | zero => rfl
  | succ n ih => simp [intRange, ih]

theorem mem_intRange {x s : Int} {n : Nat} (h : x ∈ intRange s n) :
    s ≤ x ∧ x < s + n := by
  induction n generalizing s with
  | zero => simp [intRange] at h
  | succ n ih =>
    simp only [intRange, List.mem_cons] at h
    rcases h with h | h
    · omega
    · have := ih h
      push_cast
      omega

theorem intRange_append (s : Int) (m n : Nat) :
    intRange s (m + n) = intRange s m ++ intRange (s + m) n := by
  induction m generalizing s with
  | zero => simp [intRange]
  | succ m ih =>
    have : m + 1 + n = (m + n) + 1 := by omega
    rw [this]
    simp only [intRange, List.cons_append]
    rw [ih (s + 1)]
    have h2 : s + 1 + (m : Int) = s + ((m + 1 : Nat) : Int) := by push_cast; ring
    rw [h2]

/- ### Lemmas: the artist-collection loop -/

theorem assignArtists_fst (l : List AlbumInfo) (next : Int)
    (ids : List (List Char × Int)) :
    (assignArtists l next ids).1 =
      ids ++ (assignArtists l next ids).2.map (fun p => (p.2, p.1)) := by
  induction l generalizing next ids with
  | nil => simp [assignArtists]
  | cons a rest ih =>
    cases h : alookup ids (escapeChars a.artist_name) with
    | some v => simpa [assignArtists, h] using ih next ids
    | none =>
      simp only [assignArtists, h]
      rw [ih (next + 1) (ids ++ [(escapeChars a.artist_name, next)])]
      simp

theorem assignArtists_ids_range (l : List AlbumInfo) (next : Int)
    (ids : List (List Char × Int)) :
    (assignArtists l next ids).2.map Prod.fst =
      intRange next (assignArtists l next ids).2.length := by
  induction l generalizing next ids with
  | nil => simp [assignArtists, intRange]
  | cons a rest ih =>
    cases h : alookup ids (escapeChars a.artist_name) with
    | some v => simpa [assignArtists, h] using ih next ids
    | none =>
      simp only [assignArtists, h, List.map_cons, List.length_cons, intRange]
      exact congrArg _ (ih (next + 1) _)

theorem assignArtists_lookup_mono (l : List AlbumInfo) (next : Int)
    {ids : List (List Char × Int)} {k : List Char} {v : Int}
    (h : alookup ids k = some v) :
    alookup (assignArtists l next ids).1 k = some v := by
  rw [assignArtists_fst]
  exact alookup_append_some _ h

theorem assignArtists_lookup_complete (l : List AlbumInfo) (next : Int)
    (ids : List (List Char × Int)) :
    ∀ a ∈ l, ∃ v,
      alookup (assignArtists l next ids).1 (escapeChars a.artist_name) = some v := by
  induction l generalizing next ids with
  | nil => simp
  | cons a rest ih =>
    intro b hb
    cases h : alookup ids (escapeChars a.artist_name) with
    | some v =>
      simp only [assignArtists, h]
      rcases List.mem_cons.mp hb with hb | hb
      · exact ⟨v, by rw [hb]; exact assignArtists_lookup_mono rest next h⟩
      · exact ih next ids b hb
    | none =>
      simp only [assignArtists, h]
      rcases List.mem_cons.mp hb with hb | hb
      · refine ⟨next, ?_⟩
        rw [hb]
        refine assignArtists_lookup_mono rest (next + 1) ?_
        rw [alookup_append_none _ h]
        simp [alookup]
      · exact ih (next + 1) _ b hb

theorem assignArtists_values_bound (l : List AlbumInfo) (next : Int)
    (ids : List (List Char × Int)) :
    ∀ p ∈ (assignArtists l next ids).1, p ∈ ids ∨ next ≤ p.2 := by
  induction l generalizing next ids with
  | nil => intro p hp; simp only [assignArtists] at hp; exact Or.inl hp
  | cons a rest ih =>
    intro p hp
    cases h : alookup ids (escapeChars a.artist_name) with
    | some v =>
      simp only [assignArtists, h] at hp
      exact ih next ids p hp
    | none =>
      simp only [assignArtists, h] at hp
      rcases ih (next + 1) _ p hp with hp' | hp'
      · rcases List.mem_append.mp hp' with hp'' | hp''
        · exact Or.inl hp''
        · simp only [List.mem_singleton] at hp''
          subst hp''
          exact Or.inr le_rfl
      · exact Or.inr (by omega)

theorem assignArtists_names_nodup (l : List AlbumInfo) (next : Int)
    (ids : List (List Char × Int)) :
    ((assignArtists l next ids).2.map Prod.snd).Nodup ∧
      ∀ n ∈ (assignArtists l next ids).2.map Prod.snd, alookup ids n = none := by
  induction l generalizing next ids with
  | nil => simp [assignArtists]
  | cons a rest ih
  => cases h : alookup ids (escapeChars a.artist_name) with
    | some v => simpa [assignArtists, h] using ih next ids
    | none =>
      have ihm := ih (next + 1) (ids ++ [(escapeChars a.artist_name, next)])
      simp only [assignArtists, h, List.map_cons]
      constructor
      · refine List.nodup_cons.mpr ⟨?_, ihm.1⟩
        intro hmem
        have := ihm.2 _ hmem
        rw [alookup_append_none _ h] at this
        simp [alookup] at this
      · intro n hn
        rcases List.mem_cons.mp hn with hn | hn
        · rw [hn]; exact h
        · exact alookup_append_none_left (ihm.2 n hn)

theorem assignArtists_names_eq (l : List AlbumInfo) (next : Int)
    (ids : List (List Char × Int)) :
    (assignArtists l next ids).2.map Prod.snd =
      firstDedupFrom (ids.map Prod.fst)
        (l.map (fun a => escapeChars a.artist_name)) := by
  induction l generalizing next ids with
  | nil => simp [assignArtists, firstDedupFrom]
  | cons a rest ih =>
    cases h : alookup ids (escapeChars a.artist_name) with
    | some v =>
      have hk : escapeChars a.artist_name ∈ ids.map Prod.fst := by
        by_contra hk
        rw [← alookup_eq_none] at hk
        rw [hk] at h
        cases h
      simpa [assignArtists, h, firstDedupFrom, hk] using ih next ids
    | none =>
      have hk : escapeChars a.artist_name ∉ ids.map Prod.fst := alookup_eq_none.mp h
      simp only [assignArtists, h, List.map_cons, firstDedupFrom, if_neg hk]
      refine congrArg _ ?_
      have := ih (next + 1) (ids ++ [(escapeChars a.artist_name, next)])
      simpa using this

/- ### Lemmas: the album loop -/

theorem assignAlbums_ids_range (ids : List (List Char × Int))
    (l : List AlbumInfo) (next : Int) :
    (assignAlbums ids l next).1.map AlbumRow.albumId =
      intRange next (assignAlbums ids l next).1.length := by
  induction l generalizing next with
  | nil => simp [assignAlbums, intRange]
  | cons a rest ih =>
    cases h : alookup ids (escapeChars a.artist_name) with
    | none => simpa [assignAlbums, h] using ih next
    | some aid =>
      by_cases hz : aid = 0
      · simpa [assignAlbums, h, hz] using ih next
      · simp only [assignAlbums, h, if_neg hz, List.map_cons, List.length_cons,
          intRange]
        exact congrArg _ (ih (next + 1))

theorem assignAlbums_source (ids : List (List Char × Int))
    (l : List AlbumInfo) (next : Int) :
    ∀ r ∈ (assignAlbums ids l next).1, ∃ a ∈ l,
      r.title = escapeChars a.album_name ∧
      r.releaseYear = a.release_year ∧
      alookup ids (escapeChars a.artist_name) = some r.artistId ∧
      r.artistId ≠ 0 := by
  induction l generalizing next with
  | nil => simp [assignAlbums]
  | cons a rest ih =>
    intro r hr
    cases h : alookup ids (escapeChars a.artist_name) with
    | none =>
      simp only [assignAlbums, h] at hr
      obtain ⟨b, hb, h'⟩ := ih next r hr
      exact ⟨b, List.mem_cons_of_mem _ hb, h'⟩
    | some aid =>
      by_cases hz : aid = 0
      · simp only [assignAlbums, h, if_pos hz] at hr
        obtain ⟨b, hb, h'⟩ := ih next r hr
        exact ⟨b, List.mem_cons_of_mem _ hb, h'⟩
      · simp only [assignAlbums, h, if_neg hz] at hr
        rcases List.mem_cons.mp hr with hr | hr
        · subst hr
          exact ⟨a, List.mem_cons_self _ _, rfl, rfl, h, hz⟩
        · obtain ⟨b, hb, h'⟩ := ih (next + 1) r hr
          exact ⟨b, List.mem_cons_of_mem _ hb, h'⟩

theorem assignAlbums_amap_source (ids : List (List Char × Int))
    (l : List AlbumInfo) (next : Int) :
    ∀ e ∈ (assignAlbums ids l next).2, ∃ a ∈ l,
      e.title = escapeChars a.album_name ∧
      e.genre = a.genre ∧
      e.tracks = a.tracks ∧
      alookup ids (escapeChars a.artist_name) = some e.artistId ∧
      e.artistId ≠ 0 := by
  induction l generalizing next with
  | nil => simp [assignAlbums]
  | cons a rest ih =>
    intro e he
    cases h : alookup ids (escapeChars a.artist_name) with
    | none =>
      simp only [assignAlbums, h] at he
      obtain ⟨b, hb, h'⟩ := ih next e he
      exact ⟨b, List.mem_cons_of_mem _ hb, h'⟩
    | some aid =>
      by_cases hz : aid = 0
      · simp only [assignAlbums, h, if_pos hz] at he
        obtain ⟨b, hb, h'⟩ := ih next e he
        exact ⟨b, List.mem_cons_of_mem _ hb, h'⟩
      · simp only [assignAlbums, h, if_neg hz] at he
        rcases List.mem_cons.mp he with he | he
        · subst he
          exact ⟨a, List.mem_cons_self _ _, rfl, rfl, rfl, h, hz⟩
        · obtain ⟨b, hb, h'⟩ := ih (next + 1) e he
          exact ⟨b, List.mem_cons_of_mem _ hb, h'⟩

theorem assignAlbums_amap_sync (ids : List (List Char × Int))
    (l : List AlbumInfo) (next : Int) :
    (assignAlbums ids l next).2.map (fun e => (e.albumId, e.artistId)) =
      (assignAlbums ids l next).1.map (fun r => (r.albumId, r.artistId)) := by
  induction l generalizing next with
  | nil => simp [assignAlbums]
  | cons a rest ih =>
    cases h : alookup ids (escapeChars a.artist_name) with
    | none => simpa [assignAlbums, h] using ih next
    | some aid =>
      by_cases hz : aid = 0
      · simpa [assignAlbums, h, hz] using ih next
      · simp only [assignAlbums, h, if_neg hz, List.map_cons]
        exact congrArg _ (ih (next + 1))

theorem assignAlbums_rows_filter (ids : List (List Char × Int))
    (l : List AlbumInfo) (next : Int) :
    (assignAlbums ids l next).1.map (fun r => (r.title, r.releaseYear)) =
      (l.filter (keepAlbum ids)).map
        (fun a => (escapeChars a.album_name, a.release_year)) := by
  induction l generalizing next with
  | nil => simp [assignAlbums]
  | cons a rest ih =>
    cases h : alookup ids (escapeChars a.artist_name) with
    | none =>
      have hk : keepAlbum ids a = false := by simp [keepAlbum, h, pyTruthy]
      simpa [assignAlbums, h, List.filter_cons, hk] using ih next
    | some aid =>
      by_cases hz : aid = 0
      · have hk : keepAlbum ids a = false := by simp [keepAlbum, h, pyTruthy, hz]
        simpa [assignAlbums, h, hz, List.filter_cons, hk] using ih next
      · have hk : keepAlbum ids a = true := by simp [keepAlbum, h, pyTruthy, hz]
        simp only [assignAlbums, h, if_neg hz, List.map_cons, List.filter_cons, hk,
          if_pos trivial]
        exact congrArg _ (ih (next + 1))

theorem assignAlbums_amap_tracks (ids : List (List Char × Int))
    (l : List AlbumInfo) (next : Int) :
    (assignAlbums ids l next).2.map AMapEntry.tracks =
      (l.filter (keepAlbum ids)).map AlbumInfo.tracks := by
  induction l generalizing next with
  | nil => simp [assignAlbums]
  | cons a rest ih =>
    cases h : alookup ids (escapeChars a.artist_name) with
    | none =>
      have hk : keepAlbum ids a = false := by simp [keepAlbum, h, pyTruthy]
      simpa [assignAlbums, h, List.filter_cons, hk] using ih next
    | some aid =>
      by_cases hz : aid = 0
      · have hk : keepAlbum ids a = false := by simp [keepAlbum, h, pyTruthy, hz]
        simpa [assignAlbums, h, hz, List.filter_cons, hk] using ih next
      · have hk : keepAlbum ids a = true := by simp [keepAlbum, h, pyTruthy, hz]
        simp only [assignAlbums, h, if_neg hz, List.map_cons, List.filter_cons, hk,
          if_pos trivial]
        exact congrArg _ (ih (next + 1))

theorem assignAlbums_length (ids : List (List Char × Int))
    (l : List AlbumInfo) (next : Int) :
    (assignAlbums ids l next).1.length = (l.filter (keepAlbum ids)).length := by
  have := assignAlbums_rows_filter ids l next
  have h1 := congrArg List.length this
  simpa using h1

theorem assignAlbums_amap_length (ids : List (List Char × Int))
    (l : List AlbumInfo) (next : Int) :
    (assignAlbums ids l next).2.length = (l.filter (keepAlbum ids)).length := by
  have := assignAlbums_amap_tracks ids l next
  have h1 := congrArg List.length this
  simpa using h1

/- ### Lemmas: the track loop -/

theorem assignTracksFor_ids_range (oracle : Nat → RandDraw) (gid : Nat)
    (aid : Int) (ts : List TrackInfo) (next : Int) (oi : Nat) :
    (assignTracksFor oracle gid aid ts next oi).1.map TrackRow.trackId =
        intRange next ts.length ∧
      (assignTracksFor oracle gid aid ts next oi).2.1 = next + ts.length := by
  induction ts generalizing next oi with
  | nil => simp [assignTracksFor, intRange]
  | cons t rest ih =>
    obtain ⟨ih1, ih2⟩ := ih (next + 1) (oi + 1)
    constructor
    · simp only [assignTracksFor, List.map_cons, List.length_cons, intRange]
      exact congrArg _ ih1
    · simp only [assignTracksFor]
      rw [ih2]
      push_cast [List.length_cons]
      ring

theorem assignTracks_ids_range (oracle : Nat → RandDraw)
    (amap : List AMapEntry) (next : Int) (oi : Nat) :
    (assignTracks oracle amap next oi).1.map TrackRow.trackId =
        intRange next ((amap.map (fun e => e.tracks.length)).sum) ∧
      (assignTracks oracle amap next oi).2.1 =
        next + ((amap.map (fun e => e.tracks.length)).sum) := by
  induction amap generalizing next oi with
  | nil => simp [assignTracks, intRange]
  | cons e rest ih =>
    obtain ⟨h1, h2⟩ := assignTracksFor_ids_range oracle (get_genre_id e.genre)
      e.albumId e.tracks next oi
    obtain ⟨ih1, ih2⟩ := ih
      (assignTracksFor oracle (get_genre_id e.genre) e.albumId e.tracks next oi).2.1
      (assignTracksFor oracle (get_genre_id e.genre) e.albumId e.tracks next oi).2.2
    constructor
    · simp only [assignTracks, List.map_append, List.map_cons, List.sum_cons]
      rw [h1, ih1, h2, intRange_append]
    · simp only [assignTracks, List.map_cons, List.sum_cons]
      rw [ih2, h2]
      push_cast
      ring

theorem assignTracksFor_source (oracle : Nat → RandDraw) (gid : Nat)
    (aid : Int) (ts : List TrackInfo) (next : Int) (oi : Nat) :
    ∀ r ∈ (assignTracksFor oracle gid aid ts next oi).1,
      r.albumId = aid ∧ r.genreId = gid ∧ ∃ t ∈ ts,
        r.name = escapeChars t.name ∧
        r.composer = escapeChars t.composer ∧
        r.milliseconds = t.duration_ms := by
  induction ts generalizing next oi with
  | nil => simp [assignTracksFor]
  | cons t rest ih =>
    intro r hr
    simp only [assignTracksFor, List.mem_cons] at hr
    rcases hr with hr | hr
    · subst hr
      exact ⟨rfl, rfl, t, List.mem_cons_self _ _, rfl, rfl, rfl⟩
    · obtain ⟨h1, h2, t', ht', h'⟩ := ih (next + 1) (oi + 1) r hr
      exact ⟨h1, h2, t', List.mem_cons_of_mem _ ht', h'⟩

theorem assignTracks_source (oracle : Nat → RandDraw)
    (amap : List AMapEntry) (next : Int) (oi : Nat) :
    ∀ r ∈ (assignTracks oracle amap next oi).1, ∃ e ∈ amap,
      r.albumId = e.albumId ∧ r.genreId = get_genre_id e.genre ∧ ∃ t ∈ e.tracks,
        r.name = escapeChars t.name ∧
        r.composer = escapeChars t.composer ∧
        r.milliseconds = t.duration_ms := by
  induction amap generalizing next oi with
  | nil => simp [assignTracks]
  | cons e rest ih =>
    intro r hr
    simp only [assignTracks, List.mem_append] at hr
    rcases hr with hr | hr
    · obtain ⟨h1, h2, t, ht, h'⟩ := assignTracksFor_source oracle
        (get_genre_id e.genre) e.albumId e.tracks next oi r hr
      exact ⟨e, List.mem_cons_self _ _, h1, h2, t, ht, h'⟩
    · obtain ⟨e', he', h'⟩ := ih _ _ r hr
      exact ⟨e', List.mem_cons_of_mem _ he', h'⟩

theorem assignTracksFor_order (oracle : Nat → RandDraw) (gid : Nat)
    (aid : Int) (ts : List TrackInfo) (next : Int) (oi : Nat) :
    (assignTracksFor oracle gid aid ts next oi).1.map
        (fun r => (r.name, r.milliseconds)) =
      ts.map (fun t => (escapeChars t.name, t.duration_ms)) := by
  induction ts generalizing next oi with
  | nil => simp [assignTracksFor]
  | cons t rest ih =>
    simp only [assignTracksFor, List.map_cons]
    exact congrArg _ (ih (next + 1) (oi + 1))

theorem assignTracks_order (oracle : Nat → RandDraw)
    (amap : List AMapEntry) (next : Int) (oi : Nat) :
    (assignTracks oracle amap next oi).1.map (fun r => (r.name, r.milliseconds)) =
      (amap.map (fun e =>
        e.tracks.map (fun t => (escapeChars t.name, t.duration_ms)))).flatten := by
  induction amap generalizing next oi with
  | nil => simp [assignTracks]
  | cons e rest ih =>
    simp only [assignTracks, List.map_append, List.map_cons, List.flatten_cons]
    rw [assignTracksFor_order, ih]

/- ### Lemmas: chunk_list and batching -/

theorem chunkFuel_flatten {α : Type} (k : Nat) (hk : 1 ≤ k) :
    ∀ (fuel : Nat) (l : List α), l.length ≤ fuel →
      (chunkFuel fuel l k).flatten = l := by
  intro fuel
  induction fuel with
  | zero =>
    intro l hf
    have : l = [] := List.length_eq_zero.mp (Nat.le_zero.mp hf)
    subst this
    rfl
  | succ f ih =>
    intro l hf
    cases l with
    | nil => simp [chunkFuel]
    | cons c cs =>
      have hstep : chunkFuel (f + 1) (c :: cs) k =
          (c :: cs).take k :: chunkFuel f ((c :: cs).drop k) k := by
        simp [chunkFuel]
      have hd : ((c :: cs).drop k).length ≤ f := by
        simp only [List.length_drop, List.length_cons]
        simp only [List.length_cons] at hf
        omega
      rw [hstep, List.flatten_cons, ih _ hd]
      exact List.take_append_drop k (c :: cs)

theorem chunkFuel_sizes {α : Type} (k : Nat) :
    ∀ (fuel : Nat) (l : List α), ∀ b ∈ chunkFuel fuel l k, b.length ≤ k := by
  intro fuel
  induction fuel with
  | zero => intro l b hb; simp [chunkFuel] at hb
  | succ f ih =>
    intro l b hb
    simp only [chunkFuel] at hb
    split at hb
    · simp at hb
    · rcases List.mem_cons.mp hb with hb | hb
      · subst hb
        simp only [List.length_take]
        exact Nat.min_le_left k l.length
      · exact ih _ b hb

theorem chunkFuel_count {α : Type} (k : Nat) (hk : 1 ≤ k) :
    ∀ (fuel : Nat) (l : List α), l.length ≤ fuel →
      (chunkFuel fuel l k).length = (l.length + k - 1) / k := by
  intro fuel
  induction fuel with
  | zero =>
    intro l hf
    have : l = [] := List.length_eq_zero.mp (Nat.le_zero.mp hf)
    subst this
    simp [chunkFuel, Nat.div_eq_of_lt (by omega : k - 1 < k)]
  | succ f ih =>
    intro l hf
    cases l with
    | nil => simp [chunkFuel, Nat.div_eq_of_lt (by omega : k - 1 < k)]
    | cons c cs =>
      have hstep : chunkFuel (f + 1) (c :: cs) k =
          (c :: cs).take k :: chunkFuel f ((c :: cs).drop k) k := by
        simp [chunkFuel]
      have hd : ((c :: cs).drop k).length ≤ f := by
        simp only [List.length_drop, List.length_cons]
        simp only [List.length_cons] at hf
        omega
      rw [hstep, List.length_cons, ih _ hd, List.length_drop]
      have hn1 : 1 ≤ (c :: cs).length := by simp
      have hnum : (c :: cs).length + k - 1 = ((c :: cs).length - 1) + k := by
        omega
      rw [hnum, Nat.add_div_right _ (by omega : 0 < k)]
      by_cases hbig : k ≤ (c :: cs).length
      · have heq : (c :: cs).length - k + k - 1 = (c :: cs).length - 1 := by
          omega
        rw [heq]
      · have h1 : (c :: cs).length - k = 0 := by omega
        have h2 : (c :: cs).length - 1 < k := by omega
        rw [h1]
        simp only [Nat.zero_add, Nat.div_eq_of_lt (show k - 1 < k by omega)]
        have h3 : cs.length < k := by
          simp only [List.length_cons] at h2
          omega
        simp [Nat.div_eq_of_lt h3]

theorem chunk_list_flatten {α : Type} (l : List α) (k : Nat) (hk : 1 ≤ k) :
    (chunk_list l k).flatten = l :=
  chunkFuel_flatten k hk l.length l le_rfl

theorem chunk_list_sizes {α : Type} (l : List α) (k : Nat) :
    ∀ b ∈ chunk_list l k, b.length ≤ k :=
  chunkFuel_sizes k l.length l

theorem chunk_list_count {α : Type} (l : List α) (k : Nat) (hk : 1 ≤ k) :
    (chunk_list l k).length = (l.length + k - 1) / k :=
  chunkFuel_count k hk l.length l le_rfl

theorem batchSections_length {ρ : Type} (label insertLine : List Char)
    (renderRow : ρ → List Char) (n : Nat) :
    ∀ (i : Nat) (bs : List (List ρ)),
      (batchSections label insertLine renderRow n i bs).length = 4 * bs.length := by
  intro i bs
  induction bs generalizing i with
  | nil => rfl
  | cons b rest ih =>
    simp only [batchSections, List.length_cons, ih (i + 1)]
    omega

/- ### Lemmas: escaping -/

theorem escapeChars_quoteCount (s : List Char) :
    quoteCount (escapeChars s) = 2 * quoteCount s := by
  induction s with
  | nil => rfl
  | cons c cs ih =>
    by_cases h : c = '\''
    · simp [escapeChars, quoteCount, h, List.count_cons] at ih ⊢
      omega
    · simp [escapeChars, quoteCount, h, List.count_cons] at ih ⊢
      omega

theorem escapeChars_noLoneQuote (s : List Char) :
    noLoneQuote (escapeChars s) = true := by
  induction s with
  | nil => rfl
  | cons c cs ih =>
    by_cases h : c = '\''
    · simpa [escapeChars, noLoneQuote, h] using ih
    · cases hesc : escapeChars cs with
      | nil => simp [escapeChars, noLoneQuote, h, hesc]
      | cons e es =>
        rw [hesc] at ih
        simp [escapeChars, noLoneQuote, h, hesc, ih]

/- ### Lemmas: substring search and the genre mapper -/

theorem leadMatch_append (p suf : List Char) : leadMatch p (p ++ suf) = true := by
  induction p with
  | nil => rfl
  | cons c cs ih => simpa [leadMatch] using ih

theorem occursIn_cons (pat : List Char) (c : Char) (s : List Char)
    (h : occursIn pat s = true) : occursIn pat (c :: s) = true := by
  simp [occursIn, h]

theorem occursIn_of_leadMatch {pat s : List Char}
    (h : leadMatch pat s = true) : occursIn pat s = true := by
  cases s with
  | nil => exact h
  | cons c cs => simp [occursIn, h]

theorem occursIn_sandwich (pre pat suf : List Char) :
    occursIn pat (pre ++ pat ++ suf) = true := by
  induction pre with
  | nil => exact occursIn_of_leadMatch (by simpa using leadMatch_append pat suf)
  | cons c cs ih => exact occursIn_cons _ c _ ih

theorem genreLoop_first (g : List Char) :
    ∀ (tbl : List (List Char × List Char)) (i : Nat) (h : i < tbl.length),
      ((tbl.take i).all fun kv => !occursIn kv.1 g) = true →
      occursIn (tbl.get ⟨i, h⟩).1 g = true →
      genreLoop tbl g = some (tbl.get ⟨i, h⟩).2 := by
  intro tbl
  induction tbl with
  | nil => intro i h; simp at h
  | cons kv rest ih =>
    intro i h hpre hi
    cases i with
    | zero =>
      simp only [List.get] at hi ⊢
      simp [genreLoop, hi]
    | succ j =>
      simp only [List.take_succ_cons, List.all_cons, Bool.and_eq_true,
        Bool.not_eq_true'] at hpre
      simp only [List.get] at hi ⊢
      rw [genreLoop]
      obtain ⟨kv1, kv2⟩ := kv
      simp only at hpre
      rw [if_neg (by simp [hpre.1])]
      exact ih j (Nat.lt_of_succ_lt_succ h) hpre.2 hi

theorem genreLoop_none (g : List Char) :
    ∀ tbl : List (List Char × List Char),
      (∀ kv ∈ tbl, occursIn kv.1 g = false) → genreLoop tbl g = none := by
  intro tbl
  induction tbl with
  | nil => intro _; rfl
  | cons kv rest ih =>
    intro h
    obtain ⟨k, v⟩ := kv
    rw [genreLoop, if_neg (by simp [h (k, v) (List.mem_cons_self _ _)])]
    exact ih fun kv hkv => h kv (List.mem_cons_of_mem _ hkv)

/- ### Lemmas: the date-shift transform -/

theorem parseYear4_some {l y r : List Char} (h : parseYear4 l = some (y, r)) :
    y = l.take 4 ∧ r = l.drop 4 ∧ 4 ≤ l.length := by
  unfold parseYear4 at h
  split at h
  · next hg =>
    simp only [Option.some.injEq, Prod.mk.injEq] at h
    obtain ⟨hy, hr⟩ := h
    refine ⟨hy.symm, hr.symm, ?_⟩
    simp only [Bool.and_eq_true, decide_eq_true_eq] at hg
    have h4 := hg.1
    rw [List.length_take] at h4
    omega
  · exact Option.noConfusion h

theorem parseLit_some {c : Char} {l r : List Char} (h : parseLit c l = some r) :
    l = c :: r := by
  cases l with
  | nil => exact Option.noConfusion h
  | cons c' rest =>
    by_cases hc : c' = c
    · simp only [parseLit, hc, if_true, Option.some.injEq] at h
      rw [hc, h]
    · simp [parseLit, hc] at h

theorem parseDigits13_some {l m r : List Char}
    (h : parseDigits13 l = some (m, r)) :
    m = l.takeWhile Char.isDigit ∧ r = l.dropWhile Char.isDigit ∧
      1 ≤ m.length ∧ m.length ≤ 3 := by
  unfold parseDigits13 at h
  split at h
  · next hg =>
    simp only [Option.some.injEq, Prod.mk.injEq] at h
    obtain ⟨hm, hr⟩ := h
    simp only [Bool.and_eq_true, decide_eq_true_eq] at hg
    refine ⟨hm.symm, hr.symm, ?_, ?_⟩
    · rw [← hm]; exact hg.1
    · rw [← hm]; exact hg.2
  · exact Option.noConfusion h

theorem matchDate_rest_length {l y m d rest : List Char}
    (h : matchDate l = some (y, m, d, rest)) : rest.length < l.length := by
  unfold matchDate at h
  split at h
  case _ r0 =>
    simp only [Option.bind_eq_some, Option.some.injEq, Prod.mk.injEq] at h
    obtain ⟨⟨y', r1⟩, h1, r2, h2, ⟨m', r3⟩, h3, r4, h4, ⟨d', r5⟩, h5,
      rest', h6, -, -, -, hrest⟩ := h
    subst hrest
    obtain ⟨-, hr1, hlen1⟩ := parseYear4_some h1
    have hr2 := parseLit_some h2
    obtain ⟨-, hr3, -, -⟩ := parseDigits13_some h3
    have hr4 := parseLit_some h4
    obtain ⟨-, hr5, -, -⟩ := parseDigits13_some h5
    have hr6 := parseLit_some h6
    dsimp only at hr2 hr4 hr6
    have e1 : r1.length = r0.length - 4 := by rw [hr1]; simp
    have e2 : r1.length = r2.length + 1 := by rw [hr2]; rfl
    have e3 : r3.length ≤ r2.length := by
      rw [hr3]; exact (List.dropWhile_sublist _).length_le
    have e4 : r3.length = r4.length + 1 := by rw [hr4]; rfl
    have e5 : r5.length ≤ r4.length := by
      rw [hr5]; exact (List.dropWhile_sublist _).length_le
    have e6 : r5.length = rest'.length + 1 := by rw [hr6]; rfl
    simp only [List.length_cons]
    omega
  case _ => exact Option.noConfusion h

theorem takeWhile_append_cons {p : Char → Bool} {m : List Char} {c : Char}
    (z : List Char) (hm : m.all p = true) (hc : p c = false) :
    (m ++ c :: z).takeWhile p = m ∧ (m ++ c :: z).dropWhile p = c :: z := by
  induction m with
  | nil => simp [List.takeWhile_cons, List.dropWhile_cons, hc]
  | cons a as ih =>
    simp only [List.all_cons, Bool.and_eq_true] at hm
    obtain ⟨ha, has⟩ := hm
    obtain ⟨ih1, ih2⟩ := ih has
    simp [List.takeWhile_cons, List.dropWhile_cons, ha, ih1, ih2]

theorem parseYear4_exact {y z : List Char} (hy4 : y.length = 4)
    (hyd : y.all Char.isDigit = true) :
    parseYear4 (y ++ z) = some (y, z) := by
  unfold parseYear4
  rw [show (4 : Nat) = y.length from hy4.symm, List.take_left, List.drop_left]
  simp [hy4, hyd]

theorem parseDigits13_exact (m : List Char) (c : Char) (z : List Char)
    (hm1 : 1 ≤ m.length) (hm3 : m.length ≤ 3)
    (hmd : m.all Char.isDigit = true) (hc : c.isDigit = false) :
    parseDigits13 (m ++ c :: z) = some (m, c :: z) := by
  obtain ⟨ht, hd⟩ := takeWhile_append_cons z hmd hc
  unfold parseDigits13
  rw [ht, hd]
  simp [hm1, hm3]

theorem parseLit_exact (c : Char) (z : List Char) : parseLit c (c :: z) = some z := by
  simp [parseLit]

theorem matchDate_dateLit (y m d rest : List Char)
    (hy4 : y.length = 4) (hyd : y.all Char.isDigit = true)
    (hm1 : 1 ≤ m.length) (hm3 : m.length ≤ 3) (hmd : m.all Char.isDigit = true)
    (hd1 : 1 ≤ d.length) (hd3 : d.length ≤ 3) (hdd : d.all Char.isDigit = true) :
    matchDate (dateLit y m d ++ rest) = some (y, m, d, rest) := by
  have hlit : dateLit y m d ++ rest =
      'd' :: 'a' :: 't' :: 'e' :: ' ' :: '\'' ::
        (y ++ '-' :: (m ++ '-' :: (d ++ '\'' :: rest))) := by
    simp [dateLit]
  rw [hlit]
  have h1 := parseYear4_exact (z := '-' :: (m ++ '-' :: (d ++ '\'' :: rest))) hy4 hyd
  have h2 := parseLit_exact '-' (m ++ '-' :: (d ++ '\'' :: rest))
  have h3 := parseDigits13_exact m '-' (d ++ '\'' :: rest) hm1 hm3 hmd (by decide)
  have h4 := parseLit_exact '-' (d ++ '\'' :: rest)
  have h5 := parseDigits13_exact d '\'' rest hd1 hd3 hdd (by decide)
  have h6 := parseLit_exact '\'' rest
  simp only [matchDate, h1, Option.some_bind, h2, h3, h4, h5, h6]

theorem shiftFuel_cons_match {c : Char} {cs y m d rest : List Char} {f : Nat}
    (h : matchDate (c :: cs) = some (y, m, d, rest)) :
    shiftFuel (f + 1) (c :: cs) = dateRepl y m d ++ shiftFuel f rest := by
  simp only [shiftFuel, h]

theorem shiftFuel_cons_none {c : Char} {cs : List Char} {f : Nat}
    (h : matchDate (c :: cs) = none) :
    shiftFuel (f + 1) (c :: cs) = c :: shiftFuel f cs := by
  simp only [shiftFuel, h]

theorem shiftFuel_eq (n : Nat) : ∀ (l : List Char) (f g : Nat),
    l.length ≤ n → l.length ≤ f → l.length ≤ g → shiftFuel f l = shiftFuel g l := by
  induction n with
  | zero =>
    intro l f g hn _ _
    have hl : l = [] := List.length_eq_zero.mp (Nat.le_zero.mp hn)
    subst hl
    cases f <;> cases g <;> rfl
  | succ n ih =>
    intro l f g hn hf hg
    cases l with
    | nil => cases f <;> cases g <;> rfl
    | cons c cs =>
      obtain ⟨f', rfl⟩ : ∃ f', f = f' + 1 := by
        cases f
        · simp at hf
        · exact ⟨_, rfl⟩
      obtain ⟨g', rfl⟩ : ∃ g', g = g' + 1 := by
        cases g
        · simp at hg
        · exact ⟨_, rfl⟩
      cases h : matchDate (c :: cs) with
      | some q =>
        obtain ⟨y, md, dr⟩ := q
        obtain ⟨md', rest⟩ := dr
        have hlt := matchDate_rest_length h
        simp only [List.length_cons] at hn hf hg hlt
        rw [shiftFuel_cons_match h, shiftFuel_cons_match h,
          ih rest f' g' (by omega) (by omega) (by omega)]
      | none =>
        simp only [List.length_cons] at hn hf hg
        rw [shiftFuel_cons_none h, shiftFuel_cons_none h,
          ih cs f' g' (by omega) (by omega) (by omega)]

theorem shiftLine_match (y m d rest : List Char)
    (hy4 : y.length = 4) (hyd : y.all Char.isDigit = true)
    (hm1 : 1 ≤ m.length) (hm3 : m.length ≤ 3) (hmd : m.all Char.isDigit = true)
    (hd1 : 1 ≤ d.length) (hd3 : d.length ≤ 3) (hdd : d.all Char.isDigit = true) :
    shiftLine (dateLit y m d ++ rest) = dateRepl y m d ++ shiftLine rest := by
  have hmatch := matchDate_dateLit y m d rest hy4 hyd hm1 hm3 hmd hd1 hd3 hdd
  have hlit : dateLit y m d ++ rest =
      'd' :: 'a' :: 't' :: 'e' :: ' ' :: '\'' ::
        (y ++ '-' :: (m ++ '-' :: (d ++ '\'' :: rest))) := by
    simp [dateLit]
  have hlt := matchDate_rest_length hmatch
  unfold shiftLine
  rw [hlit] at hmatch hlt ⊢
  rw [List.length_cons, shiftFuel_cons_match hmatch]
  have hle : rest.length ≤
      ('a' :: 't' :: 'e' :: ' ' :: '\'' ::
        (y ++ '-' :: (m ++ '-' :: (d ++ '\'' :: rest)))).length := by
    simp only [List.length_cons] at hlt
    simp only [List.length_cons]
    omega
  rw [shiftFuel_eq rest.length rest _ rest.length le_rfl hle le_rfl]

theorem shiftLine_no_match (l : List Char) (h : noDateMatch l = true) :
    shiftLine l = l := by
  induction l with
  | nil => rfl
  | cons c cs ih =>
    simp only [noDateMatch, Bool.and_eq_true, Option.isNone_iff_eq_none] at h
    obtain ⟨h1, h2⟩ := h
    unfold shiftLine
    rw [List.length_cons, shiftFuel_cons_none h1]
    rw [show shiftFuel cs.length cs = shiftLine cs from rfl, ih h2]

/- ### Lemmas: make_request -/

theorem mrLoop_429_step (resp : Nat → Response) (url : List Char)
    (fuel i : Nat) (ra : Option Nat) (hf : fuel ≠ 0)
    (h : resp i = Response.http429 ra) :
    mrLoop resp url 3 fuel i =
      (ra.getD 1 :: (mrLoop resp url 3 (fuel - 1) (i + 1)).1,
        (mrLoop resp url 3 (fuel - 1) (i + 1)).2) := by
  obtain ⟨f, rfl⟩ : ∃ f, fuel = f + 1 := ⟨fuel - 1, by omega⟩
  simp only [mrLoop, h, Nat.add_sub_cancel]

theorem make_request_429_const (url : List Char) (ra : Option Nat) :
    make_request (fun _ => Response.http429 ra) url =
      ([ra.getD 1, ra.getD 1, ra.getD 1],
        Except.error (MRError.exhausted url 3)) := by
  simp [make_request, mrLoop]

theorem make_request_401_const (url : List Char) :
    make_request (fun _ => Response.http401) url =
      ([], Except.error (MRError.exhausted url 3)) := by
  simp [make_request, mrLoop]

theorem make_request_net_const (url msg : List Char) :
    make_request (fun _ => Response.netError msg) url =
      ([2, 4], Except.error (MRError.genericError msg)) := by
  simp [make_request, mrLoop]

theorem errMessage_exhausted_names (url : List Char) :
    occursIn url (errMessage (MRError.exhausted url 3)) = true ∧
      occursIn (natChars 3) (errMessage (MRError.exhausted url 3)) = true := by
  constructor
  · show occursIn url
      ((("Failed to get response from ".data) ++ url ++ (" after ".data) ++
        natChars 3 ++ (" retries".data))) = true
    have h : ("Failed to get response from ".data) ++ url ++ (" after ".data) ++
        natChars 3 ++ (" retries".data) =
        ("Failed to get response from ".data) ++ url ++
          ((" after ".data) ++ natChars 3 ++ (" retries".data)) := by
      simp [List.append_assoc]
    rw [h]
    exact occursIn_sandwich _ url _
  · show occursIn (natChars 3)
      ((("Failed to get response from ".data) ++ url ++ (" after ".data) ++
        natChars 3 ++ (" retries".data))) = true
    have h : ("Failed to get response from ".data) ++ url ++ (" after ".data) ++
        natChars 3 ++ (" retries".data) =
        (("Failed to get response from ".data) ++ url ++ (" after ".data)) ++
          natChars 3 ++ (" retries".data) := by
      simp [List.append_assoc]
    rw [h]
    exact occursIn_sandwich _ (natChars 3) _

/- ### Lemmas: extra helpers for the claims -/

theorem mem_of_swap_mem {L : List (Int × List Char)} {n : List Char} {v : Int}
    (h : (n, v) ∈ L.map (fun p => (p.2, p.1))) : (v, n) ∈ L := by
  simp only [List.mem_map] at h
  obtain ⟨⟨a, b⟩, hab, heq⟩ := h
  simp only [Prod.mk.injEq] at heq
  obtain ⟨h1, h2⟩ := heq
  rw [← h1, ← h2]
  exact hab

theorem snd_nodup_unique {L : List (Int × List Char)}
    (h : (L.map Prod.snd).Nodup) {i1 i2 : Int} {n : List Char}
    (h1 : (i1, n) ∈ L) (h2 : (i2, n) ∈ L) : i1 = i2 := by
  induction L with
  | nil => simp at h1
  | cons p rest ih =>
    simp only [List.map_cons, List.nodup_cons] at h
    rcases List.mem_cons.mp h1 with h1 | h1 <;>
      rcases List.mem_cons.mp h2 with h2 | h2
    · rw [← h1] at h2
      exact ((Prod.mk.injEq _ _ _ _ |>.mp h2).1).symm
    · exfalso
      apply h.1
      rw [← h1]
      show n ∈ List.map Prod.snd rest
      exact List.mem_map_of_mem Prod.snd h2
    · exfalso
      apply h.1
      rw [← h2]
      show n ∈ List.map Prod.snd rest
      exact List.mem_map_of_mem Prod.snd h1
    · exact ih h.2 h1 h2

theorem artistPhase_lookup_mem {albums : List AlbumInfo} {maxA : Int}
    {n : List Char} {v : Int}
    (h : alookup (artistPhase albums maxA).1 n = some v) :
    (v, n) ∈ (artistPhase albums maxA).2 := by
  unfold artistPhase at h ⊢
  rw [assignArtists_fst, List.nil_append] at h
  exact mem_of_swap_mem (alookup_mem h)

theorem assignArtists_names_source (l : List AlbumInfo) (next : Int)
    (ids : List (List Char × Int)) :
    ∀ p ∈ (assignArtists l next ids).2, ∃ a ∈ l,
      p.2 = escapeChars a.artist_name := by
  induction l generalizing next ids with
  | nil => simp [assignArtists]
  | cons a rest ih =>
    intro p hp
    cases h : alookup ids (escapeChars a.artist_name) with
    | some v =>
      simp only [assignArtists, h] at hp
      obtain ⟨b, hb, h'⟩ := ih next ids p hp
      exact ⟨b, List.mem_cons_of_mem _ hb, h'⟩
    | none =>
      simp only [assignArtists, h] at hp
      rcases List.mem_cons.mp hp with hp | hp
      · subst hp
        exact ⟨a, List.mem_cons_self _ _, rfl⟩
      · obtain ⟨b, hb, h'⟩ := ih (next + 1) _ p hp
        exact ⟨b, List.mem_cons_of_mem _ hb, h'⟩

/- ### Claim theorems -/

/-- Claim C1: for every input album sequence and starting IDs, each distinct
post-escaping artist name is emitted as at most one Artist row (the emitted
names are pairwise distinct, and two emitted rows with the same name carry
the same ID), and the artist ID assigned to that name is the ArtistId
carried by every Album row (and album-map entry, through which every Track
row references its album) whose source album names that artist. -/
theorem claim_C1 (oracle : Nat → RandDraw) (albums : List AlbumInfo)
    (maxArtistId maxAlbumId maxTrackId : Int) :
    ((artistPhase albums maxArtistId).2.map Prod.snd).Nodup ∧
    (∀ (i1 i2 : Int) (n : List Char),
      (i1, n) ∈ (artistPhase albums maxArtistId).2 →
      (i2, n) ∈ (artistPhase albums maxArtistId).2 → i1 = i2) ∧
    (∀ r ∈ (albumPhase albums maxArtistId maxAlbumId).1, ∃ a ∈ albums,
      r.title = escapeChars a.album_name ∧
      (r.artistId, escapeChars a.artist_name) ∈ (artistPhase albums maxArtistId).2) ∧
    (∀ e ∈ (albumPhase albums maxArtistId maxAlbumId).2, ∃ a ∈ albums,
      (e.artistId, escapeChars a.artist_name) ∈ (artistPhase albums maxArtistId).2) ∧
    (∀ t ∈ trackPhase oracle albums maxArtistId maxAlbumId maxTrackId,
      ∃ e ∈ (albumPhase albums maxArtistId maxAlbumId).2, t.albumId = e.albumId) := by
  have hnodup := (assignArtists_names_nodup albums (maxArtistId + 1) []).1
  refine ⟨hnodup, fun i1 i2 n h1 h2 => snd_nodup_unique hnodup h1 h2, ?_, ?_, ?_⟩
  · intro r hr
    obtain ⟨a, ha, htitle, -, hlook, -⟩ :=
      assignAlbums_source (artistPhase albums maxArtistId).1 albums
        (maxAlbumId + 1) r hr
    exact ⟨a, ha, htitle, artistPhase_lookup_mem hlook⟩
  · intro e he
    obtain ⟨a, ha, -, -, -, hlook, -⟩ :=
      assignAlbums_amap_source (artistPhase albums maxArtistId).1 albums
        (maxAlbumId + 1) e he
    exact ⟨a, ha, artistPhase_lookup_mem hlook⟩
  · intro t ht
    obtain ⟨e, he, halb, -⟩ :=
      assignTracks_source oracle (albumPhase albums maxArtistId maxAlbumId).2
        (maxTrackId + 1) 0 t ht
    exact ⟨e, he, halb⟩

/-- Claim C2: the artist, album and track IDs assigned by `generate_sql`
each form the contiguous run `start_id + 1, start_id + 2, ...` with no gaps;
artists are emitted in first-occurrence order of the escaped input artist
names, album rows in input order of the (kept) albums, and track rows in
album-map order with each album's tracks in their input order. -/
theorem claim_C2 (oracle : Nat → RandDraw) (albums : List AlbumInfo)
    (maxArtistId maxAlbumId maxTrackId : Int) :
    (artistPhase albums maxArtistId).2.map Prod.fst =
        intRange (maxArtistId + 1) (artistPhase albums maxArtistId).2.length ∧
    (artistPhase albums maxArtistId).2.map Prod.snd =
        firstDedupFrom [] (albums.map fun a => escapeChars a.artist_name) ∧
    (albumPhase albums maxArtistId maxAlbumId).1.map AlbumRow.albumId =
        intRange (maxAlbumId + 1)
          (albumPhase albums maxArtistId maxAlbumId).1.length ∧
    (albumPhase albums maxArtistId maxAlbumId).1.map
          (fun r => (r.title, r.releaseYear)) =
        (albums.filter (keepAlbum (artistPhase albums maxArtistId).1)).map
          (fun a => (escapeChars a.album_name, a.release_year)) ∧
    (trackPhase oracle albums maxArtistId maxAlbumId maxTrackId).map
          TrackRow.trackId =
        intRange (maxTrackId + 1)
          (trackPhase oracle albums maxArtistId maxAlbumId maxTrackId).length ∧
    (trackPhase oracle albums maxArtistId maxAlbumId maxTrackId).map
          (fun r => (r.name, r.milliseconds)) =
        ((albumPhase albums maxArtistId maxAlbumId).2.map fun e =>
          e.tracks.map fun t => (escapeChars t.name, t.duration_ms)).flatten := by
  refine ⟨?_, ?_, ?_, ?_, ?_, ?_⟩
  · exact assignArtists_ids_range albums (maxArtistId + 1) []
  · simpa using assignArtists_names_eq albums (maxArtistId + 1) []
  · exact assignAlbums_ids_range _ albums (maxAlbumId + 1)
  · exact assignAlbums_rows_filter _ albums (maxAlbumId + 1)
  · have h := (assignTracks_ids_range oracle
      (albumPhase albums maxArtistId maxAlbumId).2 (maxTrackId + 1) 0).1
    have hlen := congrArg List.length h
    simp only [List.length_map, intRange_length] at hlen
    unfold trackPhase
    rw [h, hlen]
  · exact assignTracks_order oracle _ (maxTrackId + 1) 0

/-- Claim C3: every Album row references an ArtistId assigned to an emitted
Artist row, every Track row references an AlbumId assigned to an emitted
Album row, and the output text of `generate_sql` is the header followed by
the Artist insert section, then the Album section, then the Track section. -/
theorem claim_C3 (oracle : Nat → RandDraw) (genDate : List Char)
    (albums : List AlbumInfo) (maxArtistId maxAlbumId maxTrackId : Int)
    (k : Nat) :
    (∀ r ∈ (albumPhase albums maxArtistId maxAlbumId).1,
        r.artistId ∈ (artistPhase albums maxArtistId).2.map Prod.fst) ∧
    (∀ t ∈ trackPhase oracle albums maxArtistId maxAlbumId maxTrackId,
        t.albumId ∈
          (albumPhase albums maxArtistId maxAlbumId).1.map AlbumRow.albumId) ∧
    generate_sql oracle genDate albums maxArtistId maxAlbumId maxTrackId k =
      joinSep ("\n".data)
        ([sqlHeader genDate]
          ++ (if (artistPhase albums maxArtistId).2.isEmpty then []
              else [generate_artist_sql (artistPhase albums maxArtistId).2 k])
          ++ (if (albumPhase albums maxArtistId maxAlbumId).1.isEmpty then []
              else [generate_album_sql
                (albumPhase albums maxArtistId maxAlbumId).1 k])
          ++ (if (trackPhase oracle albums maxArtistId maxAlbumId
                maxTrackId).isEmpty then []
              else [generate_track_sql
                (trackPhase oracle albums maxArtistId maxAlbumId maxTrackId) k])) := by
  refine ⟨?_, ?_, rfl⟩
  · intro r hr
    obtain ⟨a, -, -, -, hlook, -⟩ :=
      assignAlbums_source (artistPhase albums maxArtistId).1 albums
        (maxAlbumId + 1) r hr
    have hmem := artistPhase_lookup_mem hlook
    exact List.mem_map_of_mem Prod.fst hmem
  · intro t ht
    obtain ⟨e, he, halb, -⟩ :=
      assignTracks_source oracle (albumPhase albums maxArtistId maxAlbumId).2
        (maxTrackId + 1) 0 t ht
    have hsync := assignAlbums_amap_sync (artistPhase albums maxArtistId).1
      albums (maxAlbumId + 1)
    have hids : (albumPhase albums maxArtistId maxAlbumId).2.map
          AMapEntry.albumId =
        (albumPhase albums maxArtistId maxAlbumId).1.map AlbumRow.albumId := by
      have h := congrArg (List.map Prod.fst) hsync
      simpa [List.map_map, Function.comp] using h
    rw [← hids, halb]
    exact List.mem_map_of_mem AMapEntry.albumId he

/-- Claim C7: escaping doubles every single quote (the quote count doubles
and no lone quote remains), and every text field of every emitted row
(artist name, album title, track name, composer) is the escaped form of the
corresponding input field, hence contains no lone quote. -/
theorem claim_C7 (oracle : Nat → RandDraw) (albums : List AlbumInfo)
    (maxArtistId maxAlbumId maxTrackId : Int) :
    (∀ s : List Char,
      quoteCount (escape_sql_string (some s)) = 2 * quoteCount s ∧
      noLoneQuote (escape_sql_string (some s)) = true) ∧
    escape_sql_string none = [] ∧
    (∀ p ∈ (artistPhase albums maxArtistId).2,
      (∃ a ∈ albums, p.2 = escapeChars a.artist_name) ∧
        noLoneQuote p.2 = true) ∧
    (∀ r ∈ (albumPhase albums maxArtistId maxAlbumId).1,
      (∃ a ∈ albums, r.title = escapeChars a.album_name) ∧
        noLoneQuote r.title = true) ∧
    (∀ t ∈ trackPhase oracle albums maxArtistId maxAlbumId maxTrackId,
      (∃ e ∈ (albumPhase albums maxArtistId maxAlbumId).2, ∃ tr ∈ e.tracks,
        t.name = escapeChars tr.name ∧ t.composer = escapeChars tr.composer) ∧
      noLoneQuote t.name = true ∧ noLoneQuote t.composer = true) := by
  refine ⟨fun s => ⟨escapeChars_quoteCount s, escapeChars_noLoneQuote s⟩, rfl,
    ?_, ?_, ?_⟩
  · intro p hp
    obtain ⟨a, ha, hname⟩ :=
      assignArtists_names_source albums (maxArtistId + 1) [] p hp
    exact ⟨⟨a, ha, hname⟩, by rw [hname]; exact escapeChars_noLoneQuote _⟩
  · intro r hr
    obtain ⟨a, ha, htitle, -⟩ :=
      assignAlbums_source (artistPhase albums maxArtistId).1 albums
        (maxAlbumId + 1) r hr
    exact ⟨⟨a, ha, htitle⟩, by rw [htitle]; exact escapeChars_noLoneQuote _⟩
  · intro t ht
    obtain ⟨e, he, -, -, tr, htr, hname, hcomp, -⟩ :=
      assignTracks_source oracle (albumPhase albums maxArtistId maxAlbumId).2
        (maxTrackId + 1) 0 t ht
    refine ⟨⟨e, he, tr, htr, hname, hcomp⟩, ?_, ?_⟩
    · rw [hname]; exact escapeChars_noLoneQuote _
    · rw [hcomp]; exact escapeChars_noLoneQuote _

/-- Claim C4 counterexample: three consecutive 429 responses exhaust the
3-attempt budget even though a success would follow on the fourth request,
so a 429 retry IS counted against the generic retry budget (the code
increments `retry_count` at line 129). -/
theorem claim_C4_counterexample :
    make_request
        (fun i => if i < 3 then Response.http429 none else Response.success)
        ("https://api.spotify.com/v1/search".data) =
      ([1, 1, 1],
        Except.error
          (MRError.exhausted ("https://api.spotify.com/v1/search".data) 3)) ∧
    (fun i => if i < 3 then Response.http429 none else Response.success) 3 =
      Response.success := ⟨rfl, rfl⟩

/-- Claim C4 (amended): a 429 response causes a wait of `Retry-After`
seconds (1 when the header is absent) followed by a retry, but each such
retry consumes one unit of the 3-attempt budget (the remaining fuel
decreases by one); a single 429 with `Retry-After: 5` before a success
yields exactly one 5-second wait. -/
theorem claim_C4 :
    (∀ (resp : Nat → Response) (url : List Char) (fuel i : Nat)
        (ra : Option Nat), fuel ≠ 0 → resp i = Response.http429 ra →
      mrLoop resp url 3 fuel i =
        (ra.getD 1 :: (mrLoop resp url 3 (fuel - 1) (i + 1)).1,
          (mrLoop resp url 3 (fuel - 1) (i + 1)).2)) ∧
    (∀ (url : List Char) (w : Nat),
      make_request (fun i => if i = 0 then Response.http429 (some w)
        else Response.success) url = ([w], Except.ok 1)) ∧
    (∀ url : List Char,
      make_request (fun i => if i = 0 then Response.http429 none
        else Response.success) url = ([1], Except.ok 1)) := by
  refine ⟨mrLoop_429_step, ?_, ?_⟩
  · intro url w
    simp [make_request, mrLoop]
  · intro url
    simp [make_request, mrLoop]

/-- Claim C4 witness: the amended step rule applied at a concrete oracle
that returns 429 with `Retry-After: 5` on every attempt. -/
theorem claim_C4_witness :
    mrLoop (fun _ => Response.http429 (some 5)) ("e".data) 3 3 0 =
      ((5 : Nat) ::
        (mrLoop (fun _ => Response.http429 (some 5)) ("e".data) 3 2 1).1,
        (mrLoop (fun _ => Response.http429 (some 5)) ("e".data) 3 2 1).2) :=
  claim_C4.1 (fun _ => Response.http429 (some 5)) ("e".data) 3 0 (some 5)
    (by decide) rfl

/-- Claim C5 counterexample: a persistent generic (non-HTTP) failure makes
`make_request` re-raise the original exception after the third attempt
(line 149 `raise`), not the final `Exception` naming the endpoint and the
attempt count; the raised message does not mention the endpoint. -/
theorem claim_C5_counterexample :
    make_request (fun _ => Response.netError ("boom".data))
        ("https://api.spotify.com/v1/albums/x".data) =
      ([2, 4], Except.error (MRError.genericError ("boom".data))) ∧
    errMessage (MRError.genericError ("boom".data)) = ("boom".data) ∧
    occursIn ("https://api.spotify.com/v1/albums/x".data)
      (errMessage (MRError.genericError ("boom".data))) = false :=
  ⟨rfl, rfl, rfl⟩

/-- Claim C5 (amended): whatever the failure kind, a persistent failure
terminates after exactly 3 attempts; for persistent 429 or 401 failures the
raised error is the final `Exception` whose message names the endpoint and
the attempt count, while for persistent generic failures the original
exception (with its own message) is re-raised after the two backoff sleeps
of 2 and 4 seconds. -/
theorem claim_C5 :
    (∀ (url : List Char) (ra : Option Nat),
      make_request (fun _ => Response.http429 ra) url =
        ([ra.getD 1, ra.getD 1, ra.getD 1],
          Except.error (MRError.exhausted url 3))) ∧
    (∀ url : List Char,
      make_request (fun _ => Response.http401) url =
        ([], Except.error (MRError.exhausted url 3))) ∧
    (∀ url msg : List Char,
      make_request (fun _ => Response.netError msg) url =
        ([2, 4], Except.error (MRError.genericError msg)) ∧
      errMessage (MRError.genericError msg) = msg) ∧
    (∀ url : List Char,
      occursIn url (errMessage (MRError.exhausted url 3)) = true ∧
      occursIn (natChars 3) (errMessage (MRError.exhausted url 3)) = true) := by
  exact ⟨fun url ra => make_request_429_const url ra,
    make_request_401_const,
    fun url msg => ⟨make_request_net_const url msg, rfl⟩,
    fun url => errMessage_exhausted_names url⟩

/-- Claim C6: for `n` rows and batch limit `k ≥ 1`, the rows are split into
exactly `ceil(n/k) = (n + k - 1) / k` batches of at most `k` rows each whose
concatenation is the original row list in order, and the emitted artist SQL
contains exactly one 4-line section per batch. -/
theorem claim_C6 (rows : List (Int × List Char)) (k : Nat) (hk : 1 ≤ k) :
    (chunk_list rows k).length = (rows.length + k - 1) / k ∧
    (∀ b ∈ chunk_list rows k, b.length ≤ k) ∧
    (chunk_list rows k).flatten = rows ∧
    (batchSections ("Artist".data)
        ("INSERT INTO Artist (ArtistId, Name) VALUES".data)
        renderArtistRow (chunk_list rows k).length 0
        (chunk_list rows k)).length = 4 * (chunk_list rows k).length :=
  ⟨chunk_list_count rows k hk, chunk_list_sizes rows k,
    chunk_list_flatten rows k hk, batchSections_length _ _ _ _ 0 _⟩

/-- Claim C6 witness: 7 artist rows with `max_rows = 3` give 3 batches of
at most 3 rows whose concatenation is the input. -/
theorem claim_C6_witness :
    (chunk_list [((1 : Int), ("a".data)), (2, ("b".data)), (3, ("c".data)),
        (4, ("d".data)), (5, ("e".data)), (6, ("f".data)),
        (7, ("g".data))] 3).length =
      (7 + 3 - 1) / 3 ∧
    (∀ b ∈ chunk_list [((1 : Int), ("a".data)), (2, ("b".data)),
        (3, ("c".data)), (4, ("d".data)), (5, ("e".data)), (6, ("f".data)),
        (7, ("g".data))] 3, b.length ≤ 3) ∧
    (chunk_list [((1 : Int), ("a".data)), (2, ("b".data)), (3, ("c".data)),
        (4, ("d".data)), (5, ("e".data)), (6, ("f".data)),
        (7, ("g".data))] 3).flatten =
      [((1 : Int), ("a".data)), (2, ("b".data)), (3, ("c".data)),
        (4, ("d".data)), (5, ("e".data)), (6, ("f".data)), (7, ("g".data))] ∧
    (batchSections ("Artist".data)
        ("INSERT INTO Artist (ArtistId, Name) VALUES".data)
        renderArtistRow
        (chunk_list [((1 : Int), ("a".data)), (2, ("b".data)),
          (3, ("c".data)), (4, ("d".data)), (5, ("e".data)), (6, ("f".data)),
          (7, ("g".data))] 3).length 0
        (chunk_list [((1 : Int), ("a".data)), (2, ("b".data)),
          (3, ("c".data)), (4, ("d".data)), (5, ("e".data)), (6, ("f".data)),
          (7, ("g".data))] 3)).length =
      4 * (chunk_list [((1 : Int), ("a".data)), (2, ("b".data)),
        (3, ("c".data)), (4, ("d".data)), (5, ("e".data)), (6, ("f".data)),
        (7, ("g".data))] 3).length :=
  claim_C6 [((1 : Int), ("a".data)), (2, ("b".data)), (3, ("c".data)),
    (4, ("d".data)), (5, ("e".data)), (6, ("f".data)), (7, ("g".data))] 3
    (by decide)

/-- Claim C8: `map_spotify_genre_to_chinook` returns the value of the first
mapping-table key (in table order) occurring as a substring of the lowercased
input and `"Rock"` when no key occurs; `get_genre_id` returns the table ID
for known catalog names and 1 otherwise; concretely `"hard rock" → "Rock"`,
`"hip hop" → "Hip Hop/Rap"`, and `"zorblax" → "Rock"` with ID 1. -/
theorem claim_C8 :
    (∀ (g : List Char) (i : Nat) (h : i < genre_mapping.length),
      ((genre_mapping.take i).all fun kv =>
        !occursIn kv.1 (lowerChars g)) = true →
      occursIn (genre_mapping.get ⟨i, h⟩).1 (lowerChars g) = true →
      map_spotify_genre_to_chinook g = (genre_mapping.get ⟨i, h⟩).2) ∧
    (∀ g : List Char,
      (∀ kv ∈ genre_mapping, occursIn kv.1 (lowerChars g) = false) →
      map_spotify_genre_to_chinook g = ("Rock".data)) ∧
    map_spotify_genre_to_chinook ("hard rock".data) = ("Rock".data) ∧
    map_spotify_genre_to_chinook ("hip hop".data) = ("Hip Hop/Rap".data) ∧
    map_spotify_genre_to_chinook ("zorblax".data) = ("Rock".data) ∧
    get_genre_id (map_spotify_genre_to_chinook ("zorblax".data)) = 1 ∧
    get_genre_id ("Rock".data) = 1 ∧
    (∀ (nm : List Char) (v : Nat),
      alookup genre_id_map nm = some v → get_genre_id nm = v) ∧
    (∀ nm : List Char, alookup genre_id_map nm = none → get_genre_id nm = 1) := by
  refine ⟨?_, ?_, by decide, by decide, by decide, by decide, by decide, ?_, ?_⟩
  · intro g i h hpre hi
    unfold map_spotify_genre_to_chinook
    rw [genreLoop_first (lowerChars g) genre_mapping i h hpre hi]
    rfl
  · intro g h
    unfold map_spotify_genre_to_chinook
    rw [genreLoop_none (lowerChars g) genre_mapping h]
    rfl
  · intro nm v h
    unfold get_genre_id
    rw [h]
    rfl
  · intro nm h
    unfold get_genre_id
    rw [h]
    rfl

/-- Claim C8 witness: the first-match rule applied at `"hip hop"`, whose
first matching table key is entry 7 (`"hip hop"`), the earlier seven keys
not being substrings. -/
theorem claim_C8_witness :
    map_spotify_genre_to_chinook ("hip hop".data) = ("Hip Hop/Rap".data) :=
  (claim_C8.1 ("hip hop".data) 7 (by decide) (by decide) (by decide)).trans
    (by decide)

/-- Claim C9: the date-shift transform rewrites every leftmost match of
`date 'YYYY-M-D'` (4-digit year, 1-3 digit month/day, not calendar
validated) to the same literal with the year decremented and month/day
unchanged, leaves lines without any match verbatim, and concretely maps
`date '2021-06-15'` to `date '2020-06-15'` and `date '2021-1-1'` to
`date '2020-1-1'`. -/
theorem claim_C9 :
    (∀ y m d rest : List Char,
      y.length = 4 → y.all Char.isDigit = true →
      1 ≤ m.length → m.length ≤ 3 → m.all Char.isDigit = true →
      1 ≤ d.length → d.length ≤ 3 → d.all Char.isDigit = true →
      shiftLine (dateLit y m d ++ rest) = dateRepl y m d ++ shiftLine rest) ∧
    (∀ l : List Char, noDateMatch l = true → shiftLine l = l) ∧
    shiftLine ("date '2021-06-15'".data) = ("date '2020-06-15'".data) ∧
    shiftLine ("date '2021-1-1'".data) = ("date '2020-1-1'".data) ∧
    shiftLine ("UPDATE Invoice SET Total = 1;".data) =
      ("UPDATE Invoice SET Total = 1;".data) :=
  ⟨shiftLine_match, shiftLine_no_match, by decide, by decide, by decide⟩

/-- Claim C9 witness: the rewrite rule applied at the concrete literal
`date '2021-06-15'` (year group `2021`, month `06`, day `15`, empty rest). -/
theorem claim_C9_witness :
    shiftLine (dateLit ("2021".data) ("06".data) ("15".data) ++ []) =
      dateRepl ("2021".data) ("06".data) ("15".data) ++ shiftLine [] :=
  claim_C9.1 ("2021".data) ("06".data) ("15".data) [] (by decide) (by decide)
    (by decide) (by decide) (by decide) (by decide) (by decide) (by decide)

/-- Claim C10: with `max_artist_id = -1` the first distinct artist receives
ID 0, and because line 407 tests the looked-up ID for truthiness instead of
presence, every album of that artist (and so all of its tracks) is silently
omitted from the output; with any `max_artist_id ≥ 0` no album is dropped. -/
theorem claim_C10 (oracle : Nat → RandDraw) (albums : List AlbumInfo)
    (a0 : AlbumInfo) (rest : List AlbumInfo) (maxAlbumId maxTrackId : Int)
    (h : albums = a0 :: rest) :
    (artistPhase albums (-1)).2.head? =
        some (0, escapeChars a0.artist_name) ∧
    (albumPhase albums (-1) maxAlbumId).1.length =
        (albums.filter fun a =>
          decide (escapeChars a.artist_name ≠ escapeChars a0.artist_name)).length ∧
    (trackPhase oracle albums (-1) maxAlbumId maxTrackId).length =
        ((albums.filter fun a =>
          decide (escapeChars a.artist_name ≠ escapeChars a0.artist_name)).map
            fun a => a.tracks.length).sum ∧
    (∀ maxA : Int, 0 ≤ maxA →
      (albumPhase albums maxA maxAlbumId).1.length = albums.length ∧
      (trackPhase oracle albums maxA maxAlbumId maxTrackId).length =
        (albums.map fun a => a.tracks.length).sum) := by
  subst h
  have hA2 : (artistPhase (a0 :: rest) (-1)).2 =
      ((0 : Int), escapeChars a0.artist_name) ::
        (assignArtists rest 1 [(escapeChars a0.artist_name, 0)]).2 := by
    norm_num [artistPhase, assignArtists, alookup]
  have hA1 : (artistPhase (a0 :: rest) (-1)).1 =
      (assignArtists rest 1 [(escapeChars a0.artist_name, 0)]).1 := by
    norm_num [artistPhase, assignArtists, alookup]
  have h0 : alookup (artistPhase (a0 :: rest) (-1)).1
      (escapeChars a0.artist_name) = some 0 := by
    rw [hA1]
    exact assignArtists_lookup_mono rest 1 (by simp [alookup])
  have hpos : ∀ (n : List Char) (v : Int), n ≠ escapeChars a0.artist_name →
      alookup (artistPhase (a0 :: rest) (-1)).1 n = some v → 1 ≤ v := by
    intro n v hn hv
    rw [hA1, assignArtists_fst] at hv
    simp only [List.cons_append, List.nil_append, alookup,
      if_neg (Ne.symm hn)] at hv
    have hmem := mem_of_swap_mem (alookup_mem hv)
    have hrange := assignArtists_ids_range rest 1
      [(escapeChars a0.artist_name, 0)]
    have hv2 : v ∈ (assignArtists rest 1
        [(escapeChars a0.artist_name, 0)]).2.map Prod.fst :=
      List.mem_map_of_mem Prod.fst hmem
    rw [hrange] at hv2
    exact (mem_intRange hv2).1
  have hkeep : ∀ a ∈ a0 :: rest,
      keepAlbum (artistPhase (a0 :: rest) (-1)).1 a =
        decide (escapeChars a.artist_name ≠ escapeChars a0.artist_name) := by
    intro a ha
    by_cases he : escapeChars a.artist_name = escapeChars a0.artist_name
    · rw [keepAlbum, he, h0]
      simp [pyTruthy]
    · obtain ⟨v, hv⟩ := assignArtists_lookup_complete (a0 :: rest)
        ((-1 : Int) + 1) [] a ha
      have hv' : alookup (artistPhase (a0 :: rest) (-1)).1
          (escapeChars a.artist_name) = some v := hv
      have h1v := hpos _ v he hv'
      have hv0 : v ≠ 0 := by omega
      rw [keepAlbum, hv']
      simp [pyTruthy, hv0, he]
  refine ⟨?_, ?_, ?_, ?_⟩
  · rw [hA2]
    rfl
  · unfold albumPhase
    rw [assignAlbums_length]
    exact congrArg List.length (List.filter_congr hkeep)
  · unfold trackPhase
    have hrange := (assignTracks_ids_range oracle
      (albumPhase (a0 :: rest) (-1) maxAlbumId).2 (maxTrackId + 1) 0).1
    have hlen := congrArg List.length hrange
    simp only [List.length_map, intRange_length] at hlen
    rw [hlen]
    have htr := assignAlbums_amap_tracks (artistPhase (a0 :: rest) (-1)).1
      (a0 :: rest) (maxAlbumId + 1)
    have hm : (albumPhase (a0 :: rest) (-1) maxAlbumId).2.map
        (fun e => e.tracks.length) =
        ((a0 :: rest).filter
          (keepAlbum (artistPhase (a0 :: rest) (-1)).1)).map
            (fun a => a.tracks.length) := by
      have h2 := congrArg (List.map List.length) htr
      simpa [List.map_map, Function.comp] using h2
    rw [hm, List.filter_congr hkeep]
  · intro maxA hge
    have hkeep' : ∀ a ∈ a0 :: rest,
        keepAlbum (artistPhase (a0 :: rest) maxA).1 a = true := by
      intro a ha
      obtain ⟨v, hv⟩ := assignArtists_lookup_complete (a0 :: rest)
        (maxA + 1) [] a ha
      have hv' : alookup (artistPhase (a0 :: rest) maxA).1
          (escapeChars a.artist_name) = some v := hv
      have hb := assignArtists_values_bound (a0 :: rest) (maxA + 1) []
        _ (alookup_mem hv)
      have hvge : maxA + 1 ≤ v := by
        rcases hb with hb | hb
        · simp at hb
        · exact hb
      have hv0 : v ≠ 0 := by omega
      rw [keepAlbum, hv']
      simp [pyTruthy, hv0]
    constructor
    · unfold albumPhase
      rw [assignAlbums_length, List.filter_eq_self.mpr hkeep']
    · unfold trackPhase
      have hrange := (assignTracks_ids_range oracle
        (albumPhase (a0 :: rest) maxA maxAlbumId).2 (maxTrackId + 1) 0).1
      have hlen := congrArg List.length hrange
      simp only [List.length_map, intRange_length] at hlen
      rw [hlen]
      have htr := assignAlbums_amap_tracks (artistPhase (a0 :: rest) maxA).1
        (a0 :: rest) (maxAlbumId + 1)
      have hm : (albumPhase (a0 :: rest) maxA maxAlbumId).2.map
          (fun e => e.tracks.length) =
          ((a0 :: rest).filter
            (keepAlbum (artistPhase (a0 :: rest) maxA).1)).map
              (fun a => a.tracks.length) := by
        have h2 := congrArg (List.map List.length) htr
        simpa [List.map_map, Function.comp] using h2
      rw [hm, List.filter_eq_self.mpr hkeep']

/-- Claim C1 witness: on the three example albums (artists `A`, `A`, `B`)
with starting IDs 5/10/20, the emitted artist names are pairwise distinct. -/
theorem claim_C1_witness :
    ((artistPhase [exAlbum0, exAlbum1, exAlbum2] 5).2.map Prod.snd).Nodup :=
  (claim_C1 exOracle [exAlbum0, exAlbum1, exAlbum2] 5 10 20).1

/-- Claim C2 witness: on the example albums with `max_artist_id = 5`, the
emitted artist IDs are the contiguous run starting at 6. -/
theorem claim_C2_witness :
    (artistPhase [exAlbum0, exAlbum1, exAlbum2] 5).2.map Prod.fst =
      intRange 6 (artistPhase [exAlbum0, exAlbum1, exAlbum2] 5).2.length := by
  have h := (claim_C2 exOracle [exAlbum0, exAlbum1, exAlbum2] 5 10 20).1
  have h6 : (5 : Int) + 1 = 6 := by norm_num
  rw [h6] at h
  exact h

/-- Claim C3 witness: the first emitted album row of the example run
references ArtistId 6, which is among the emitted artist IDs. -/
theorem claim_C3_witness :
    (⟨11, ("X".data), 6, 2001⟩ : AlbumRow).artistId ∈
      (artistPhase [exAlbum0, exAlbum1, exAlbum2] 5).2.map Prod.fst :=
  (claim_C3 exOracle ("g".data) [exAlbum0, exAlbum1, exAlbum2] 5 10 20 2).1
    ⟨11, ("X".data), 6, 2001⟩ (by decide)

/-- Claim C5 witness: persistent 429 with `Retry-After: 2` waits 2 seconds
three times and raises the endpoint-naming terminal error. -/
theorem claim_C5_witness :
    make_request (fun _ => Response.http429 (some 2)) ("u".data) =
      ([2, 2, 2], Except.error (MRError.exhausted ("u".data) 3)) :=
  claim_C5.1 ("u".data) (some 2)

/-- Claim C7 witness: escaping `a'b` doubles its single quote count and
leaves no lone quote. -/
theorem claim_C7_witness :
    quoteCount (escape_sql_string (some ("a'b".data))) =
        2 * quoteCount ("a'b".data) ∧
      noLoneQuote (escape_sql_string (some ("a'b".data))) = true :=
  (claim_C7 exOracle [] 0 0 0).1 ("a'b".data)

/-- Claim C10 witness: on the example albums (two by artist `A`, one by
artist `B`) with `max_artist_id = -1`, artist `A` gets ID 0, only the one
album by `B` survives, and only its track is emitted. -/
theorem claim_C10_witness :
    (artistPhase [exAlbum0, exAlbum1, exAlbum2] (-1)).2.head? =
        some (0, escapeChars exAlbum0.artist_name) ∧
    (albumPhase [exAlbum0, exAlbum1, exAlbum2] (-1) 10).1.length =
        ([exAlbum0, exAlbum1, exAlbum2].filter fun a =>
          decide (escapeChars a.artist_name ≠
            escapeChars exAlbum0.artist_name)).length ∧
    (trackPhase exOracle [exAlbum0, exAlbum1, exAlbum2] (-1) 10 20).length =
        (([exAlbum0, exAlbum1, exAlbum2].filter fun a =>
          decide (escapeChars a.artist_name ≠
            escapeChars exAlbum0.artist_name)).map
            fun a => a.tracks.length).sum := by
  have h := claim_C10 exOracle [exAlbum0, exAlbum1, exAlbum2] exAlbum0
    [exAlbum1, exAlbum2] 10 20 rfl
  exact ⟨h.1, h.2.1, h.2.2.1⟩
